import Mathlib

/-!
Verification of the mongoose-seeder library (src/index.js) against its
natural-language specification.

The development shallowly embeds the seeding engine of `src/index.js`:

* `Value` models the JSON-compatible JavaScript values a seed spec is made of
  (including `undefined`, which plays a role in property walks).
* `findReference` embeds `_findReference` (src/index.js lines 187-214).
* `parseValue` / `unwindFields` / `parseArray` embed `_parseValue` and
  `_unwind` (lines 130-179).
* `seedRecords` / `seedGroup` / `seedGroups` / `seedData` embed `_seed`
  (lines 37-121); the strictly sequential `async.eachSeries` /
  `async.series` control flow is embedded as sequential `Except`-based
  state passing, a thrown error aborting the run.
* `mergedOptions` / `effectiveOptions` / `seedTop` embed the exported `seed`
  function (lines 225-291), and `runDone` embeds its local `done` helper
  (lines 278-287).
* External collaborators (the `vm` expression sandbox, `mongoose.model`,
  `Model.create`, `dropDatabase`, `module.parent.require`) are abstracted
  as a `Backend` structure of arbitrary functions.
* A separate heap model (`Heap`, `cloneH`, `seedMutationsH`, `readback`)
  embeds the object-graph aliasing facts needed for the deep-copy /
  no-caller-mutation property: the in-place writes `_seed` performs on its
  input object (`delete data._dependencies`, `delete value._model`) are
  modelled as explicit heap updates, and `_.cloneDeep` as a fresh-address
  graph copy.
-/

namespace MongooseSeeder

/-- JavaScript-like values as they appear in a seed spec and in created
records: `undefined`, `null`, booleans, numbers (modelled as integers:
no claim involves non-integral numbers), strings, arrays and plain
objects (ordered association lists, mirroring JavaScript enumeration
order of string-keyed objects). -/
inductive Value where
  | undef : Value
  | null : Value
  | bool : Bool → Value
  | num : Int → Value
  | str : String → Value
  | arr : List Value → Value
  | obj : List (String × Value) → Value

/-- JavaScript truthiness of a `Value` (`!v` in the source is `!truthy v`).
Objects and arrays are always truthy; `undefined`, `null`, `false`, `0`
and the empty string are falsy. -/
def truthy : Value → Bool
  | .undef => false
  | .null => false
  | .bool b => b
  | .num n => n != 0
  | .str s => s.data != []
  | .arr _ => true
  | .obj _ => true

/-- First binding of a key in an association list (JavaScript property
lookup on an object literal; keys of a JavaScript object are unique, so
first-match lookup is faithful). -/
def lookupField {α : Type} : List (String × α) → String → Option α
  | [], _ => none
  | (k, v) :: rest, key => if k = key then some v else lookupField rest key

/-- Update the binding of `key` in place, appending it when absent
(JavaScript `o[key] = v`). -/
def setField {α : Type} : List (String × α) → String → α → List (String × α)
  | [], key, v => [(key, v)]
  | (k, w) :: rest, key, v =>
    if k = key then (key, v) :: rest else (k, w) :: setField rest key v

/-- Remove the binding of `key` (JavaScript `delete o[key]`). -/
def removeField {α : Type} : List (String × α) → String → List (String × α)
  | [], _ => []
  | (k, w) :: rest, key =>
    if k = key then removeField rest key else (k, w) :: removeField rest key

/-- Keys of an association list in order (`Object.keys`). -/
def keysOf {α : Type} (l : List (String × α)) : List String := l.map Prod.fst

/-- Helper for `splitDot`, accumulating the current segment reversed. -/
def splitDotAux (acc : List Char) : List Char → List String
  | [] => [String.mk acc.reverse]
  | c :: rest =>
    if c = '.' then String.mk acc.reverse :: splitDotAux [] rest
    else splitDotAux (c :: acc) rest

/-- JavaScript `ref.split('.')`: splits on every dot, keeping empty
segments, and always returns at least one segment. -/
def splitDot (s : String) : List String := splitDotAux [] s.data

/-- Does the string start with the given character (`value.indexOf(c) === 0`
for a single-character needle)? -/
def headIs (s : String) (c : Char) : Bool :=
  match s.data with
  | [] => false
  | c₀ :: _ => c₀ = c

/-- Does the string start with `->` (`value.indexOf('->') === 0`)? -/
def headIsArrow (s : String) : Bool :=
  match s.data with
  | '-' :: '>' :: _ => true
  | _ => false

/-- JavaScript `value.substr(1)`. -/
def dropOne (s : String) : String := String.mk s.data.tail

/-- JavaScript `value.substr(2)`. -/
def dropTwo (s : String) : String := String.mk (s.data.drop 2)

/-- The global regex replacement `value.replace(/this\./g, '_this.')`
performed before an expression is evaluated (src/index.js line 167):
every occurrence of `this.` is replaced, scanning left to right without
overlap. -/
def replaceThisChars : List Char → List Char
  | 't' :: 'h' :: 'i' :: 's' :: '.' :: rest =>
    '_' :: 't' :: 'h' :: 'i' :: 's' :: '.' :: replaceThisChars rest
  | c :: rest => c :: replaceThisChars rest
  | [] => []

/-- String form of `replaceThisChars`. -/
def replaceThis (s : String) : String := String.mk (replaceThisChars s.data)

/-- Decimal value of a digit character, if it is one. -/
def digitVal (c : Char) : Option Nat :=
  if 48 ≤ c.toNat ∧ c.toNat ≤ 57 then some (c.toNat - 48) else none

/-- Accumulating decimal parser for `jsIndex`. -/
def digitsValAux (acc : Nat) : List Char → Option Nat
  | [] => some acc
  | c :: rest =>
    match digitVal c with
    | none => none
    | some d => digitsValAux (acc * 10 + d) rest

/-- A string counts as a JavaScript array index when it is the canonical
decimal representation of a natural number (so `"01"` or `"x"` index
nothing). -/
def jsIndex (s : String) : Option Nat :=
  match s.data with
  | [] => none
  | ['0'] => some 0
  | '0' :: _ => none
  | cs => digitsValAux 0 cs

/-- Errors a run can abort with.  They mirror the exceptions thrown by
src/index.js and the spec's error taxonomy:

* `missingModel` — the `Error` thrown at line 66 when a group has no
  truthy `_model` property (spec: `MissingModelError`);
* `unknownModel` — `mongoose.model(name)` threw for an unregistered name
  (spec: `UnknownModelError`);
* `refGroupNotFound` — the `TypeError` thrown at line 194 when the first
  segment of a reference selects no group in the result store
  (spec: `ReferenceNotFound`);
* `propertyOfNullish` — the native `TypeError` raised when a property is
  read from `undefined` or `null` while walking a reference path
  (spec: `PropertyNotFound`);
* `missingId` — the `TypeError` thrown at line 207 when a reference
  terminates on an object whose `_id` is absent or falsy
  (spec: `MissingIdentifier`);
* `dependencyLoadFailed` — `module.parent.require` threw
  (spec: `DependencyNotFound`);
* `backendFailed` — a `Model.create` or `dropDatabase` failure passed
  through (spec: `BackendOperationError`). -/
inductive SeedError where
  | missingModel : SeedError
  | unknownModel : Value → SeedError
  | refGroupNotFound : String → SeedError
  | propertyOfNullish : String → SeedError
  | missingId : SeedError
  | dependencyLoadFailed : String → SeedError
  | backendFailed : String → SeedError

/-- One step of the reference walk `result = result[key]`
(src/index.js line 199) with JavaScript property-access semantics:
reading from `undefined` or `null` throws a `TypeError`; reading a
missing key from an object yields `undefined`; reading from a primitive
yields `undefined` (built-in prototype properties are not modelled);
reading from an array supports canonical numeric indices and `length`. -/
def getProp : Value → String → Except SeedError Value
  | .undef, k => .error (.propertyOfNullish k)
  | .null, k => .error (.propertyOfNullish k)
  | .bool _, _ => .ok .undef
  | .num _, _ => .ok .undef
  | .str _, _ => .ok .undef
  | .arr elems, k =>
    if k = "length" then .ok (.num elems.length)
    else
      match jsIndex k with
      | some i => .ok ((elems.get? i).getD .undef)
      | none => .ok .undef
  | .obj fields, k => .ok ((lookupField fields k).getD .undef)

/-- The walk loop `while((key = keys.shift())) { result = result[key]; }`
(src/index.js lines 198-200): it stops at the end of the key list or at
the first empty segment (an empty string shifted from the array is falsy,
ending the loop with the remaining segments discarded). -/
def walkPath : Value → List String → Except SeedError Value
  | v, [] => .ok v
  | v, k :: rest =>
    if k = "" then .ok v
    else
      match getProp v k with
      | .error e => .error e
      | .ok v2 => walkPath v2 rest

/-- The results accumulated for one group: record key → created record. -/
abbrev GroupResults := List (String × Value)

/-- The result store `_this.result`: group name → group results. -/
abbrev ResultStore := List (String × GroupResults)

/-- Embedding of `_findReference` (src/index.js lines 187-214): split the
reference on dots, select the group named by the first segment from the
result store (throwing when that group object does not exist — the
`!result` check, an empty group object being truthy), walk the remaining
segments, and finally: an object result yields its `_id` (throwing when
`_id` is absent or falsy — the `!result._id` check), while anything else
(scalars, arrays, `undefined`, `null`) is returned verbatim. -/
def findReference (st : ResultStore) (ref : String) : Except SeedError Value :=
  match splitDot ref with
  | [] => .ok .undef
  | g :: rest =>
    match lookupField st g with
    | none => .error (.refGroupNotFound g)
    | some grp =>
      match walkPath (.obj grp) rest with
      | .error e => .error e
      | .ok v =>
        match v with
        | .obj fields =>
          match lookupField fields "_id" with
          | some idv => if truthy idv then .ok idv else .error .missingId
          | none => .error .missingId
        | other => .ok other

/-- The external collaborators of the engine, abstracted:

* `evalExpr ctx e` models `vm.runInContext(e, vm.createContext(objectAssign({_this: ctx}, sandbox)))`
  for the already-rewritten expression text `e`; `none` models a thrown
  evaluation error.  The per-run `sandbox` of loaded dependencies is
  closed over by the function.
* `loadModule` models `module.parent.require` for a dependency value.
* `modelLookup` models `mongoose.model(name)`: `none` models the throw
  for an unregistered model, `some c` returns a handle that also serves
  as the collection name used by `Model.create` / `dropCollection`.
* `create c data` models `Model.create(data, cb)`.
* `dropDatabaseResult` models the outcome of `mongoose.connection.db.dropDatabase`. -/
structure Backend where
  evalExpr : Value → String → Option Value
  loadModule : Value → Except String Unit
  modelLookup : Value → Option String
  create : String → Value → Except String Value
  dropDatabaseResult : Except String Unit

mutual

/-- Embedding of `_parseValue` (src/index.js lines 144-179).  A plain
object is unwound with itself as the new parent; an array maps the
parser over its elements keeping the current parent; a string starting
with `=` is evaluated (after the `this.` → `_this.` rewrite) in the
sandbox with the parent bound, a thrown evaluation error degrading to
the original string; a string starting with `->` is resolved against the
result store; everything else passes through. -/
def parseValue (B : Backend) (st : ResultStore) (parent : Value) : Value → Except SeedError Value
  | .obj fields =>
    match unwindFields B st (.obj fields) fields with
    | .error e => .error e
    | .ok fs => .ok (.obj fs)
  | .arr elems =>
    match parseArray B st parent elems with
    | .error e => .error e
    | .ok vs => .ok (.arr vs)
  | .str s =>
    if headIs s '=' then
      match B.evalExpr parent (replaceThis (dropOne s)) with
      | some v => .ok v
      | none => .ok (.str s)
    else if headIsArrow s then findReference st (dropTwo s)
    else .ok (.str s)
  | v => .ok v

/-- Embedding of `_unwind` (src/index.js lines 130-134): `_.mapValues`
over the fields of `parent`, producing a fresh association list; the
unresolved `parent` object is passed to every `parseValue` call, and
resolved values are never written back into it. -/
def unwindFields (B : Backend) (st : ResultStore) (parent : Value) :
    List (String × Value) → Except SeedError (List (String × Value))
  | [] => .ok []
  | (k, v) :: rest =>
    match parseValue B st parent v with
    | .error e => .error e
    | .ok v2 =>
      match unwindFields B st parent rest with
      | .error e => .error e
      | .ok rest2 => .ok ((k, v2) :: rest2)

/-- Embedding of the `_.map` branch of `_parseValue` for arrays
(src/index.js lines 149-154). -/
def parseArray (B : Backend) (st : ResultStore) (parent : Value) :
    List Value → Except SeedError (List Value)
  | [] => .ok []
  | v :: rest =>
    match parseValue B st parent v with
    | .error e => .error e
    | .ok v2 =>
      match parseArray B st parent rest with
      | .error e => .error e
      | .ok rest2 => .ok (v2 :: rest2)

end

/-- Resolution of one record spec: `_unwind(modelData)` at src/index.js
line 92.  Record specs are objects in every claim; a non-object record
spec is modelled as producing an empty object (lodash `mapValues` on a
non-collection). -/
def unwindRecord (B : Backend) (st : ResultStore) : Value → Except SeedError Value
  | .obj fields =>
    match unwindFields B st (.obj fields) fields with
    | .error e => .error e
    | .ok fs => .ok (.obj fs)
  | _ => .ok (.obj [])

/-- Observable backend requests issued during a run, in order. -/
inductive Event where
  | dropDatabase : Event
  | dropCollection : String → Event
  | create : String → Value → Event

/-- The store write `_this.result[key][k] = result` (src/index.js line
101): insert the created record into group `g` of the store.  The
group's entry always exists when the engine performs this write (it is
initialised at line 59); the `none` branch mirrors a plain insert. -/
def storeInsert (st : ResultStore) (g k : String) (created : Value) : ResultStore :=
  match lookupField st g with
  | some grp => setField st g (setField grp k created)
  | none => setField st g [(k, created)]

/-- Embedding of the inner `async.eachSeries(Object.keys(value), ...)`
loop (src/index.js lines 90-105): for each record key in order, unwind
the record against the current result store, issue `Model.create`, and
on success store the created record under `result[g][k]` before moving
on; the first failure aborts with that error.  The second component
lists the backend requests issued. -/
def seedRecords (B : Backend) (g : String) (model : String) :
    List (String × Value) → ResultStore → Except SeedError ResultStore × List Event
  | [], st => (.ok st, [])
  | (k, rv) :: rest, st =>
    match unwindRecord B st rv with
    | .error e => (.error e, [])
    | .ok data =>
      match B.create model data with
      | .error msg => (.error (.backendFailed msg), [.create model data])
      | .ok created =>
        let out := seedRecords B g model rest (storeInsert st g k created)
        (out.1, .create model data :: out.2)

/-- Embedding of the body of the outer group loop (src/index.js lines
63-107): require a truthy `_model` (reading `_model` from `null` or
`undefined` throws a `TypeError`; a falsy or absent `_model`, including
on a primitive group value, throws the missing-model `Error`), resolve
the model, optionally drop its collection (the source ignores any
`dropCollection` error, line 81-83), then create the group's records. -/
def seedGroup (B : Backend) (dropColls : Bool) (g : String) (gv : Value)
    (st : ResultStore) : Except SeedError ResultStore × List Event :=
  match gv with
  | .undef => (.error (.propertyOfNullish "_model"), [])
  | .null => (.error (.propertyOfNullish "_model"), [])
  | .obj fields =>
    match lookupField fields "_model" with
    | none => (.error .missingModel, [])
    | some m =>
      if truthy m then
        match B.modelLookup m with
        | none => (.error (.unknownModel m), [])
        | some model =>
          let out := seedRecords B g model (removeField fields "_model") st
          ((if dropColls then [Event.dropCollection model] else []) ++
            out.2 |> fun tr => (out.1, tr))
      else (.error .missingModel, [])
  | _ => (.error .missingModel, [])

/-- Embedding of `async.eachSeries(Object.keys(data), ...)` (src/index.js
lines 58-120): groups are processed in declaration order; `result[g]` is
initialised to an empty group object before the group is processed
(line 59); the first group error aborts the run. -/
def seedGroups (B : Backend) (dropColls : Bool) :
    List (String × Value) → ResultStore → Except SeedError ResultStore × List Event
  | [], st => (.ok st, [])
  | (g, gv) :: rest, st =>
    let st0 := setField st g ([] : GroupResults)
    match seedGroup B dropColls g gv st0 with
    | (.error e, tr) => (.error e, tr)
    | (.ok st2, tr) =>
      let out := seedGroups B dropColls rest st2
      (out.1, tr ++ out.2)

/-- Embedding of the dependency loop (src/index.js lines 40-47): each
declared dependency is resolved through the external loader; a loader
failure aborts the run.  The "alias already bound" skip is invisible
here because the sandbox starts empty each run and object keys are
unique. -/
def loadDeps (B : Backend) : List (String × Value) → Except SeedError Unit
  | [] => .ok ()
  | (_, mid) :: rest =>
    match B.loadModule mid with
    | .error msg => .error (.dependencyLoadFailed msg)
    | .ok _ => loadDeps B rest

/-- Embedding of `_seed` (src/index.js lines 37-121): load the declared
dependencies (a failure aborting before any group), remove the
`_dependencies` key, then process the remaining keys as groups starting
from an empty result store.  Reading `_dependencies` from a `null` or
`undefined` spec throws; every claim uses an object spec. -/
def seedData (B : Backend) (dropColls : Bool) : Value → Except SeedError ResultStore × List Event
  | .obj fields =>
    let depRes :=
      match lookupField fields "_dependencies" with
      | some (.obj deps) => loadDeps B deps
      | _ => .ok ()
    match depRes with
    | .error e => (.error e, [])
    | .ok _ => seedGroups B dropColls (removeField fields "_dependencies") []
  | .undef => (.error (.propertyOfNullish "_dependencies"), [])
  | .null => (.error (.propertyOfNullish "_dependencies"), [])
  | _ => (.ok [], [])

/-- The options argument of `seed`: each flag may be absent.  A present
flag carries an arbitrary value, because the source compares with
`=== true`. -/
structure Options where
  dropDatabase : Option Value
  dropCollections : Option Value

/-- JavaScript `v === true`. -/
def isTrueV : Value → Bool
  | .bool b => b
  | _ => false

/-- Embedding of `_.extend(_.clone(DEFAULT_OPTIONS), options)`
(src/index.js lines 22-25 and 244): `dropDatabase` defaults to `true`,
`dropCollections` defaults to `false`, and a user-supplied field
overrides its default.  Result: (dropDatabase, dropCollections). -/
def mergedOptions (o : Options) : Value × Value :=
  (o.dropDatabase.getD (.bool true), o.dropCollections.getD (.bool false))

/-- Embedding of the mutual-exclusivity adjustment (src/index.js lines
246-251): when both flags are `=== true`, `dropDatabase` is forced to
`false`. -/
def effectiveOptions (o : Options) : Value × Value :=
  let dd := (mergedOptions o).1
  let dc := (mergedOptions o).2
  if isTrueV dc && isTrueV dd then (.bool false, dc) else (dd, dc)

mutual

/-- Structure-preserving deep copy of a value: the pure shadow of
`_.cloneDeep(data)` (src/index.js lines 262 and 267).  On pure values it
is the identity (`cloneDeepV_eq`); the aliasing content of the deep copy
is captured by the heap model below. -/
def cloneDeepV : Value → Value
  | .obj fields => .obj (cloneDeepFields fields)
  | .arr elems => .arr (cloneDeepList elems)
  | v => v

/-- Field-list part of `cloneDeepV`. -/
def cloneDeepFields : List (String × Value) → List (String × Value)
  | [] => []
  | (k, v) :: rest => (k, cloneDeepV v) :: cloneDeepFields rest

/-- Element-list part of `cloneDeepV`. -/
def cloneDeepList : List Value → List Value
  | [] => []
  | v :: rest => cloneDeepV v :: cloneDeepList rest

end

/-- Embedding of the exported `seed` function (src/index.js lines
225-291): default and reconcile the options, request a whole-database
drop when `dropDatabase` is effectively true (its failure aborting
before any seeding), then run `_seed` on a deep copy of the caller's
spec. -/
def seedTop (B : Backend) (o : Options) (data : Value) :
    Except SeedError ResultStore × List Event :=
  let dd := (effectiveOptions o).1
  let dc := (effectiveOptions o).2
  if isTrueV dd then
    match B.dropDatabaseResult with
    | .error msg => (.error (.backendFailed msg), [Event.dropDatabase])
    | .ok _ =>
      let out := seedData B (isTrueV dc) (cloneDeepV data)
      (out.1, Event.dropDatabase :: out.2)
  else seedData B (isTrueV dc) (cloneDeepV data)

/-- The two completion channels after a run: the state of the deferred
promise and the list of callback invocations, each invocation carrying
the `(err, result)` pair it was given. -/
structure Completion where
  rejectedWith : Option SeedError
  resolvedWith : Option ResultStore
  callbackCalls : List (Option SeedError × Option ResultStore)

/-- Embedding of the local `done` helper (src/index.js lines 278-287),
which is invoked exactly once per run with the run's outcome: an error
rejects the promise and calls the callback with the error; success
resolves the promise and calls the callback with the result. -/
def runDone : Except SeedError ResultStore → Completion
  | .error e => ⟨some e, none, [(some e, none)]⟩
  | .ok res => ⟨none, some res, [(none, some res)]⟩

end MongooseSeeder

namespace MongooseSeeder

/-! Basic lemmas about association lists. -/

/-- Looking up the key just set yields the new value. -/
theorem lookupField_setField_same {α : Type} (l : List (String × α)) (k : String) (v : α) :
    lookupField (setField l k v) k = some v := by
  induction l with
  | nil => simp [setField, lookupField]
  | cons p rest ih =>
    by_cases hk : p.1 = k
    · simp [setField, hk, lookupField]
    · simp [setField, hk, lookupField, ih]

/-- Setting one key leaves every other key's binding unchanged. -/
theorem lookupField_setField_other {α : Type} (l : List (String × α)) (k k2 : String) (v : α)
    (h : k2 ≠ k) : lookupField (setField l k v) k2 = lookupField l k2 := by
  have h2 : ¬(k = k2) := fun hh => h hh.symm
  induction l with
  | nil => simp [setField, lookupField, h2]
  | cons p rest ih =>
    by_cases hk : p.1 = k
    · subst hk
      simp [setField, lookupField, h2]
    · simp only [setField, hk, if_false, lookupField]
      by_cases hp : p.1 = k2
      · simp [hp]
      · simp [hp, ih]

/-- A key is bound exactly when it occurs among the keys. -/
theorem lookupField_eq_none_iff {α : Type} (l : List (String × α)) (k : String) :
    lookupField l k = none ↔ k ∉ keysOf l := by
  induction l with
  | nil => simp [lookupField, keysOf]
  | cons p rest ih =>
    by_cases hk : p.1 = k
    · simp [lookupField, hk, keysOf]
    · have hk2 : ¬(k = p.1) := fun hh => hk hh.symm
      simp [lookupField, hk, keysOf, ih, hk2]

/-- Keys after a `setField`: unchanged when the key was present, the key
appended when it was absent. -/
theorem keysOf_setField {α : Type} (l : List (String × α)) (k : String) (v : α) :
    keysOf (setField l k v) = if k ∈ keysOf l then keysOf l else keysOf l ++ [k] := by
  induction l with
  | nil => simp [setField, keysOf]
  | cons p rest ih =>
    by_cases hk : p.1 = k
    · simp [setField, hk, keysOf]
    · have hk2 : ¬(k = p.1) := fun hh => hk hh.symm
      simp only [setField, hk, if_false, keysOf, List.map_cons, List.mem_cons, hk2,
        false_or]
      by_cases hm : k ∈ List.map Prod.fst rest
      · simp only [hm, if_true]
        have := ih
        simp only [keysOf, hm, if_true] at this
        simp [this]
      · simp only [hm, if_false]
        have := ih
        simp only [keysOf, hm, if_false] at this
        simp [this]

end MongooseSeeder

namespace MongooseSeeder

/-- Is the value anything other than a plain object (a scalar, a
sequence, `null` or `undefined`)?  Such reference results are returned
verbatim by `_findReference`. -/
def notPlainObject : Value → Bool
  | .obj _ => false
  | _ => true

/-- C3: for every field whose value is a string starting with `=`, a
failed evaluation (modelled by the expression collaborator returning
`none`) resolves the field to the original string including the leading
`=` without aborting (the parser returns a success, so the record
continues processing), and a successful evaluation resolves the field to
the evaluated result. -/
theorem C3_expression_failure_degrades (B : Backend) (st : ResultStore)
    (parent : Value) (s : String) (cs : List Char) (h : s.data = '=' :: cs) :
    (B.evalExpr parent (replaceThis (String.mk cs)) = none →
      parseValue B st parent (.str s) = .ok (.str s)) ∧
    (∀ v, B.evalExpr parent (replaceThis (String.mk cs)) = some v →
      parseValue B st parent (.str s) = .ok v) := by
  have hhead : headIs s '=' = true := by simp [headIs, h]
  have hdrop : dropOne s = String.mk cs := by simp [dropOne, h]
  constructor
  · intro hev
    simp [parseValue, hhead, hdrop, hev]
  · intro v hev
    simp [parseValue, hhead, hdrop, hev]

/-- Expression collaborator used by the C3 witness: it can evaluate
`1+1` and nothing else. -/
def evalB3 : Backend :=
  { evalExpr := fun _ e => if e = "1+1" then some (.num 2) else none
    loadModule := fun _ => .ok ()
    modelLookup := fun _ => none
    create := fun _ _ => .error "unused"
    dropDatabaseResult := .ok () }

/-- Witness for C3: `=1+1` resolves to `2`, and the invalid `=foo(`
resolves to the literal string `"=foo("` without an error. -/
theorem C3_witness :
    parseValue evalB3 [] (.obj []) (.str "=1+1") = .ok (.num 2) ∧
    parseValue evalB3 [] (.obj []) (.str "=foo(") = .ok (.str "=foo(") := by
  constructor
  · exact (C3_expression_failure_degrades evalB3 [] (.obj []) "=1+1" "1+1".data rfl).2
      (.num 2) rfl
  · exact (C3_expression_failure_degrades evalB3 [] (.obj []) "=foo(" "foo(".data rfl).1 rfl

end MongooseSeeder

namespace MongooseSeeder

/-- C2: when the fully walked reference path terminates on a plain
object, `_findReference` returns that object's `_id` (and fails with the
missing-identifier error when the object has no `_id` field); when the
path terminates on anything that is not a plain object (a scalar or a
sequence), that value is returned verbatim.  In particular a two-segment
reference `g.k` to a stored record with a truthy `_id` resolves to
exactly the identifier stored under `result[g][k]`. -/
theorem C2_reference_terminal (st : ResultStore) (ref : String) :
    (∀ g rest grp v, splitDot ref = g :: rest → lookupField st g = some grp →
      walkPath (.obj grp) rest = .ok v →
      ((∀ fields idv, v = .obj fields → lookupField fields "_id" = some idv →
          truthy idv = true → findReference st ref = .ok idv) ∧
       (∀ fields, v = .obj fields → lookupField fields "_id" = none →
          findReference st ref = .error .missingId) ∧
       (notPlainObject v = true → findReference st ref = .ok v))) ∧
    (∀ g k grp fields idv, splitDot ref = [g, k] → k ≠ "" →
      lookupField st g = some grp → lookupField grp k = some (.obj fields) →
      lookupField fields "_id" = some idv → truthy idv = true →
      findReference st ref = .ok idv) := by
  constructor
  · intro g rest grp v hsplit hgrp hwalk
    refine ⟨?_, ?_, ?_⟩
    · intro fields idv hv hid htr
      subst hv
      simp [findReference, hsplit, hgrp, hwalk, hid, htr]
    · intro fields hv hid
      subst hv
      simp [findReference, hsplit, hgrp, hwalk, hid]
    · intro hnpo
      cases v with
      | obj _ => simp [notPlainObject] at hnpo
      | undef => simp [findReference, hsplit, hgrp, hwalk]
      | null => simp [findReference, hsplit, hgrp, hwalk]
      | bool b => simp [findReference, hsplit, hgrp, hwalk]
      | num n => simp [findReference, hsplit, hgrp, hwalk]
      | str s => simp [findReference, hsplit, hgrp, hwalk]
      | arr l => simp [findReference, hsplit, hgrp, hwalk]
  · intro g k grp fields idv hsplit hk hgrp hrec hid htr
    have hwalk : walkPath (.obj grp) [k] = .ok (.obj fields) := by
      simp [walkPath, hk, getProp, hrec]
    simp [findReference, hsplit, hgrp, hwalk, hid, htr]

/-- Witness for C2: in a store where `result.users.sam` is a created
record with identifier `"id0"`, the reference `users.sam` resolves to
that identifier, a missing `_id` yields the missing-identifier error,
and a path ending on a scalar field returns that scalar verbatim. -/
theorem C2_witness :
    findReference [("users", [("sam", Value.obj [("_id", Value.str "id0")])])]
      "users.sam" = .ok (.str "id0") ∧
    findReference [("users", [("sam", Value.obj [("name", Value.str "x")])])]
      "users.sam" = .error .missingId ∧
    findReference [("users", [("sam", Value.obj [("_id", Value.str "id0"),
      ("age", Value.num 27)])])] "users.sam.age" = .ok (.num 27) := by
    refine ⟨?_, ?_, ?_⟩
    · exact (C2_reference_terminal _ "users.sam").2 "users" "sam" _ _ _
        (by decide) (by decide) rfl rfl rfl rfl
    · exact ((C2_reference_terminal
        [("users", [("sam", Value.obj [("name", Value.str "x")])])] "users.sam").1
        "users" ["sam"]
        [("sam", Value.obj [("name", Value.str "x")])]
        (Value.obj [("name", Value.str "x")])
        (by decide) rfl rfl).2.1 _ rfl rfl
    · exact ((C2_reference_terminal
        [("users", [("sam", Value.obj [("_id", Value.str "id0"),
          ("age", Value.num 27)])])] "users.sam.age").1
        "users" ["sam", "age"]
        [("sam", Value.obj [("_id", Value.str "id0"), ("age", Value.num 27)])]
        (Value.num 27)
        (by decide) rfl rfl).2.2 rfl

/-- C5: evaluation of `_findReference` at the inputs that decide the
claim.  A reference whose final segment names a property missing from
the stored record silently resolves to `undefined` (no error is raised),
while a missing non-final segment raises the property-read `TypeError`:
the fail-fast policy the claim demands does not hold uniformly in the
code. -/
theorem C5_missing_segment_eval :
    findReference [("g", [("k", Value.obj [("_id", Value.str "i"),
      ("f", Value.num 1)])])] "g.k.nofield" = .ok .undef ∧
    findReference [("g", [("k", Value.obj [("_id", Value.str "i")])])]
      "g.k.miss.deeper" = .error (.propertyOfNullish "deeper") := by
  constructor
  · rfl
  · rfl

end MongooseSeeder

namespace MongooseSeeder

/-- The resolved binding of a key: `_unwind` maps each binding of the
source record through `parseValue` with the whole unresolved record as
parent, so the output binding of `k` is the parse of its source
binding. -/
theorem unwindFields_lookup (B : Backend) (st : ResultStore) (parent : Value)
    (l : List (String × Value)) (out : List (String × Value)) (k : String) (v : Value)
    (hk : lookupField l k = some v)
    (hout : unwindFields B st parent l = .ok out) :
    ∃ v2, parseValue B st parent v = .ok v2 ∧ lookupField out k = some v2 := by
  induction l generalizing out with
  | nil => simp [lookupField] at hk
  | cons p rest ih =>
    obtain ⟨k1, w⟩ := p
    simp only [unwindFields] at hout
    cases hpw : parseValue B st parent w with
    | error e => rw [hpw] at hout; exact absurd hout (by simp)
    | ok w2 =>
      rw [hpw] at hout
      cases hrest : unwindFields B st parent rest with
      | error e => rw [hrest] at hout; exact absurd hout (by simp)
      | ok rest2 =>
        rw [hrest] at hout
        have hout2 : out = (k1, w2) :: rest2 := by
          cases hout; rfl
        subst hout2
        by_cases hk1 : k1 = k
        · subst hk1
          simp [lookupField] at hk
          subst hk
          exact ⟨w2, hpw, by simp [lookupField]⟩
        · simp [lookupField, hk1] at hk ⊢
          exact ih rest2 hk hrest

/-- C10: the context bound for self-reference while resolving a record
field is the record's original unresolved field list: the resolved value
of an expression field is exactly the expression collaborator applied to
the unresolved record object (so an expression observes every sibling's
raw source value, never a resolved one — resolution writes into a fresh
output list and never back into the source record). -/
theorem C10_raw_sibling_context (B : Backend) (st : ResultStore)
    (fields out : List (String × Value)) (k : String) (s : String) (cs : List Char)
    (hs : s.data = '=' :: cs)
    (hk : lookupField fields k = some (.str s))
    (hout : unwindFields B st (.obj fields) fields = .ok out) :
    lookupField out k =
      some (match B.evalExpr (.obj fields) (replaceThis (String.mk cs)) with
            | some v => v
            | none => .str s) := by
  obtain ⟨v2, hpv, hlk⟩ := unwindFields_lookup B st (.obj fields) fields out k _ hk hout
  have hhead : headIs s '=' = true := by simp [headIs, hs]
  have hdrop : dropOne s = String.mk cs := by simp [dropOne, hs]
  rw [hlk]
  congr 1
  cases hev : B.evalExpr (.obj fields) (replaceThis (String.mk cs)) with
  | none =>
    have := (C3_expression_failure_degrades B st (.obj fields) s cs hs).1 hev
    rw [this] at hpv
    cases hpv
    rfl
  | some w =>
    have := (C3_expression_failure_degrades B st (.obj fields) s cs hs).2 w hev
    rw [this] at hpv
    cases hpv
    rfl

/-- Expression collaborator for the C10 witness: `_this.a` looks up the
sibling `a` in the bound context object, and `1` evaluates to `1`. -/
def evalB10 : Backend :=
  { evalExpr := fun ctx e =>
      if e = "_this.a" then
        match ctx with
        | .obj fs => lookupField fs "a"
        | _ => none
      else if e = "1" then some (.num 1) else none
    loadModule := fun _ => .ok ()
    modelLookup := fun _ => none
    create := fun _ _ => .error "unused"
    dropDatabaseResult := .ok () }

/-- The record used by the C10 witness: field `a` is an expression, and
field `b` references its sibling `a` through the evaluation context. -/
def demoFields : List (String × Value) := [("a", .str "=1"), ("b", .str "=this.a")]

/-- Witness for C10: resolving the record turns `a` into `1`, yet the
sibling-referencing expression in `b` observes `a`'s raw source string
`"=1"`, not the resolved `1`. -/
theorem C10_witness :
    unwindFields evalB10 [] (.obj demoFields) demoFields =
      .ok [("a", Value.num 1), ("b", Value.str "=1")] ∧
    lookupField [("a", Value.num 1), ("b", Value.str "=1")] "b" =
      some (Value.str "=1") := by
  refine ⟨rfl, ?_⟩
  have h := C10_raw_sibling_context evalB10 [] demoFields
    [("a", Value.num 1), ("b", Value.str "=1")] "b" "=this.a" "this.a".data
    rfl rfl rfl
  simpa using h

end MongooseSeeder

namespace MongooseSeeder

/-- A cooperative backend whose `create` echoes the resolved record:
expressions never evaluate, every string model name is registered, and
drops succeed. -/
def echoBackend : Backend :=
  { evalExpr := fun _ _ => none
    loadModule := fun _ => .ok ()
    modelLookup := fun m => match m with | .str mname => some mname | _ => none
    create := fun _ d => .ok d
    dropDatabaseResult := .ok () }

/-- The spec used by the C4 counterexample: the first record of group
`g` holds a forward reference `->g.b` into its own group, whose entry in
the result store exists but has no created records yet. -/
def fwdSpec : Value :=
  .obj [("g", .obj [("_model", .str "M"),
    ("a", .obj [("x", .str "->g.b")]),
    ("b", .obj [("y", .num 1)])])]

/-- Counterexample to C4 as stated: the reference `->g.b` is resolved
while group `g` has no created entries yet in the result store (record
`a` is the first one processed), yet the run does not fail with the
reference-not-found error — it completes successfully, the forward
reference silently resolving to `undefined`. -/
theorem C4_counterexample :
    (seedTop echoBackend ⟨some (.bool false), none⟩ fwdSpec).1 =
      .ok [("g", [("a", Value.obj [("x", Value.undef)]),
                  ("b", Value.obj [("y", Value.num 1)])])] := rfl

/-- C4 (amended): the reference resolver fails with the
reference-not-found error exactly in the cases where the group selected
by the first path segment is absent from the result store — an unknown
group name, or a group whose processing has not yet begun.  (A forward
reference into the group currently being processed does not raise this
error, because the group's result entry already exists, possibly empty:
see `C4_counterexample`.)  Such a resolution error aborts the
record-creation loop at once: no create call is issued for the failing
record or any later one. -/
theorem C4_amended_group_absent (st : ResultStore) (ref : String) (g : String)
    (rest : List String) (hsplit : splitDot ref = g :: rest)
    (habs : lookupField st g = none) :
    findReference st ref = .error (.refGroupNotFound g) ∧
    (∀ (B : Backend) (parent : Value) (s : String), s.data = '-' :: '>' :: ref.data →
      parseValue B st parent (.str s) = .error (.refGroupNotFound g)) ∧
    (∀ (B : Backend) (gname model k : String) (rv : Value)
      (rest2 : List (String × Value)) (e : SeedError),
      unwindRecord B st rv = .error e →
      seedRecords B gname model ((k, rv) :: rest2) st = (.error e, [])) := by
  refine ⟨?_, ?_, ?_⟩
  · simp [findReference, hsplit, habs]
  · intro B parent s hdata
    have hhead : headIs s '=' = false := by simp [headIs, hdata]
    have harrow : headIsArrow s = true := by simp [headIsArrow, hdata]
    have hdrop : dropTwo s = ref := by simp [dropTwo, hdata]
    simp [parseValue, hhead, harrow, hdrop, findReference, hsplit, habs]
  · intro B gname model k rv rest2 e hun
    simp [seedRecords, hun]

/-- Witness for the amended C4: an unknown group `nope` makes the
resolver, the value parser, and the record-creation loop all fail with
the reference-not-found error for `nope`. -/
theorem C4_amended_witness :
    findReference [("x", [])] "nope.k" = .error (.refGroupNotFound "nope") ∧
    parseValue echoBackend [("x", [])] (.obj []) (.str "->nope.k") =
      .error (.refGroupNotFound "nope") ∧
    seedRecords echoBackend "g" "M" [("a", Value.obj [("f", Value.str "->nope.k")])]
      [("x", [])] = (.error (.refGroupNotFound "nope"), []) := by
  have h := C4_amended_group_absent [("x", [])] "nope.k" "nope" ["k"] (by decide) rfl
  exact ⟨h.1, h.2.1 echoBackend (.obj []) "->nope.k" rfl,
    h.2.2 echoBackend "g" "M" "a" (Value.obj [("f", Value.str "->nope.k")]) [] _ rfl⟩

end MongooseSeeder

namespace MongooseSeeder

mutual

/-- On pure values the deep copy is the identity. -/
theorem cloneDeepV_eq : ∀ v : Value, cloneDeepV v = v
  | .undef => rfl
  | .null => rfl
  | .bool _ => rfl
  | .num _ => rfl
  | .str _ => rfl
  | .arr elems => by rw [cloneDeepV, cloneDeepList_eq elems]
  | .obj fields => by rw [cloneDeepV, cloneDeepFields_eq fields]

/-- Field-list part of `cloneDeepV_eq`. -/
theorem cloneDeepFields_eq : ∀ l : List (String × Value), cloneDeepFields l = l
  | [] => rfl
  | (k, v) :: rest => by rw [cloneDeepFields, cloneDeepV_eq v, cloneDeepFields_eq rest]

/-- Element-list part of `cloneDeepV_eq`. -/
theorem cloneDeepList_eq : ∀ l : List Value, cloneDeepList l = l
  | [] => rfl
  | v :: rest => by rw [cloneDeepList, cloneDeepV_eq v, cloneDeepList_eq rest]

end

/-- The collection names the run would drop for the given groups: one
per group that carries a `_model` value recognised by the backend. -/
def groupCollections (B : Backend) : List (String × Value) → List String
  | [] => []
  | (_, gv) :: rest =>
    (match gv with
     | .obj gf =>
       match lookupField gf "_model" with
       | some m =>
         (match B.modelLookup m with
          | some c => [c]
          | none => [])
       | none => []
     | _ => []) ++ groupCollections B rest

/-- Every backend request issued by the record loop is a create. -/
theorem seedRecords_events_create (B : Backend) (g model : String)
    (recs : List (String × Value)) (st : ResultStore) :
    ∀ ev ∈ (seedRecords B g model recs st).2, ∃ m d, ev = Event.create m d := by
  induction recs generalizing st with
  | nil => simp [seedRecords]
  | cons p rest ih =>
    obtain ⟨k, rv⟩ := p
    intro ev hev
    simp only [seedRecords] at hev
    cases hun : unwindRecord B st rv with
    | error e => simp [hun] at hev
    | ok d =>
      simp only [hun] at hev
      cases hcr : B.create model d with
      | error msg =>
        simp [hcr] at hev
        exact ⟨model, d, hev⟩
      | ok created =>
        simp only [hcr, List.mem_cons] at hev
        rcases hev with hev | hev
        · exact ⟨model, d, hev⟩
        · exact ih _ ev hev

/-- Every backend request issued by the group loop is either a create or
a drop of one of the seeded groups' collections; no whole-database drop
is ever requested there. -/
theorem seedGroups_events (B : Backend) (dc : Bool) (gs : List (String × Value))
    (st : ResultStore) :
    ∀ ev ∈ (seedGroups B dc gs st).2,
      (∃ m d, ev = Event.create m d) ∨
      (∃ c, ev = Event.dropCollection c ∧ c ∈ groupCollections B gs) := by
  induction gs generalizing st with
  | nil => simp [seedGroups]
  | cons p rest ih =>
    obtain ⟨g, gv⟩ := p
    intro ev hev
    have hgrp : ∀ st2, ev ∈ (seedGroup B dc g gv st2).2 →
        (∃ m d, ev = Event.create m d) ∨
        (∃ c, ev = Event.dropCollection c ∧ c ∈ groupCollections B ((g, gv) :: rest)) := by
      intro st2 hmem
      cases gv with
      | obj gf =>
        simp only [seedGroup] at hmem
        cases hm : lookupField gf "_model" with
        | none => simp [hm] at hmem
        | some m =>
          simp only [hm] at hmem
          by_cases htr : truthy m = true
          · simp only [htr, if_true] at hmem
            cases hml : B.modelLookup m with
            | none => simp [hml] at hmem
            | some c =>
              simp only [hml] at hmem
              rcases List.mem_append.mp hmem with h1 | h2
              · by_cases hdc : dc = true
                · simp only [hdc, if_true, List.mem_singleton] at h1
                  refine Or.inr ⟨c, h1, ?_⟩
                  simp [groupCollections, hm, hml]
                · simp [hdc] at h1
              · rcases seedRecords_events_create B g c _ _ ev h2 with ⟨m2, d2, hev2⟩
                exact Or.inl ⟨m2, d2, hev2⟩
          · simp [htr] at hmem
      | undef => simp [seedGroup] at hmem
      | null => simp [seedGroup] at hmem
      | bool b => simp [seedGroup] at hmem
      | num n => simp [seedGroup] at hmem
      | str s => simp [seedGroup] at hmem
      | arr l => simp [seedGroup] at hmem
    simp only [seedGroups] at hev
    cases hsg : seedGroup B dc g gv (setField st g ([] : GroupResults)) with
    | mk r tr =>
      rw [hsg] at hev
      cases r with
      | error e =>
        simp only [List.mem_append] at hev
        exact hgrp (setField st g ([] : GroupResults)) (by rw [hsg]; exact hev)
      | ok st2 =>
        simp only [List.mem_append] at hev
        rcases hev with hev | hev
        · exact hgrp (setField st g ([] : GroupResults)) (by rw [hsg]; exact hev)
        · rcases ih st2 ev hev with h | ⟨c, hev2, hc⟩
          · exact Or.inl h
          · refine Or.inr ⟨c, hev2, ?_⟩
            simp only [groupCollections, List.mem_append]
            right
            exact hc

end MongooseSeeder

namespace MongooseSeeder

/-- C6: for every options value, `dropDatabase` defaults to `true` and
`dropCollections` defaults to `false`; when both flags resolve to
`true`, `dropCollections` wins and `dropDatabase` is forced to `false`;
consequently such a run never requests the whole-database drop, and
every collection drop it requests names a collection of one of the
seeded groups. -/
theorem C6_drop_policy :
    (∀ o : Options, o.dropDatabase = none → (mergedOptions o).1 = .bool true) ∧
    (∀ o : Options, o.dropCollections = none → (mergedOptions o).2 = .bool false) ∧
    (∀ o : Options, (mergedOptions o).1 = .bool true → (mergedOptions o).2 = .bool true →
      effectiveOptions o = (.bool false, .bool true)) ∧
    (∀ (B : Backend) (o : Options) (fields : List (String × Value)),
      (mergedOptions o).1 = .bool true → (mergedOptions o).2 = .bool true →
      Event.dropDatabase ∉ (seedTop B o (.obj fields)).2 ∧
      (∀ c, Event.dropCollection c ∈ (seedTop B o (.obj fields)).2 →
        c ∈ groupCollections B (removeField fields "_dependencies"))) := by
  have heff : ∀ o : Options, (mergedOptions o).1 = .bool true →
      (mergedOptions o).2 = .bool true → effectiveOptions o = (.bool false, .bool true) := by
    intro o h1 h2
    simp [effectiveOptions, h1, h2, isTrueV]
  refine ⟨?_, ?_, heff, ?_⟩
  · intro o h
    simp [mergedOptions, h]
  · intro o h
    simp [mergedOptions, h]
  · intro B o fields h1 h2
    have htop : seedTop B o (.obj fields) =
        seedData B true (cloneDeepV (.obj fields)) := by
      simp [seedTop, heff o h1 h2, isTrueV]
    rw [htop, cloneDeepV_eq]
    simp only [seedData]
    cases hdep : (match lookupField fields "_dependencies" with
      | some (.obj deps) => loadDeps B deps
      | _ => .ok ()) with
    | error e => simp
    | ok u =>
      constructor
      · intro hmem
        rcases seedGroups_events B true (removeField fields "_dependencies") [] _ hmem with
          ⟨m, d, h⟩ | ⟨c, h, _⟩
        all_goals simp at h
      · intro c hmem
        rcases seedGroups_events B true (removeField fields "_dependencies") [] _ hmem with
          ⟨m, d, h⟩ | ⟨c2, h, hc⟩
        · simp at h
        · have : c2 = c := by
            cases h
            rfl
          rw [this] at hc
          exact hc

/-- Witness for C6: with no options both defaults apply; with both flags
requested `true` the effective options drop only collections; a concrete
run with both flags set issues no whole-database drop, and its only
collection drop names the seeded group's collection. -/
theorem C6_witness :
    (mergedOptions ⟨none, none⟩).1 = .bool true ∧
    (mergedOptions ⟨none, none⟩).2 = .bool false ∧
    effectiveOptions ⟨some (.bool true), some (.bool true)⟩ = (.bool false, .bool true) ∧
    (Event.dropDatabase ∉
      (seedTop echoBackend ⟨some (.bool true), some (.bool true)⟩ fwdSpec).2 ∧
     (∀ c, Event.dropCollection c ∈
        (seedTop echoBackend ⟨some (.bool true), some (.bool true)⟩ fwdSpec).2 →
        c ∈ groupCollections echoBackend
          (removeField [("g", Value.obj [("_model", Value.str "M"),
            ("a", Value.obj [("x", Value.str "->g.b")]),
            ("b", Value.obj [("y", Value.num 1)])])] "_dependencies"))) := by
  refine ⟨C6_drop_policy.1 ⟨none, none⟩ rfl, C6_drop_policy.2.1 ⟨none, none⟩ rfl,
    C6_drop_policy.2.2.1 ⟨some (.bool true), some (.bool true)⟩ rfl rfl, ?_⟩
  exact C6_drop_policy.2.2.2 echoBackend ⟨some (.bool true), some (.bool true)⟩
    [("g", Value.obj [("_model", Value.str "M"),
      ("a", Value.obj [("x", Value.str "->g.b")]),
      ("b", Value.obj [("y", Value.num 1)])])] rfl rfl

end MongooseSeeder

namespace MongooseSeeder

/-- A successful lookup means the key occurs. -/
theorem lookupField_some_mem {α : Type} (l : List (String × α)) (k : String) (v : α)
    (h : lookupField l k = some v) : k ∈ keysOf l := by
  by_cases hm : k ∈ keysOf l
  · exact hm
  · rw [(lookupField_eq_none_iff l k).mpr hm] at h
    cases h

/-- The record keys a group spec declares: every key except the model
marker (after `delete value._model`, `Object.keys(value)` lists exactly
these). -/
def recordKeys : Value → List String
  | .obj gf => keysOf (removeField gf "_model")
  | _ => []

/-- Store shape after a successful record loop: the store keeps its
group names, every other group's contents are untouched, and the
processed group's contents are extended by exactly the processed record
keys, in order. -/
theorem seedRecords_store (B : Backend) (g model : String)
    (recs : List (String × Value)) :
    ∀ (st : ResultStore) (grp : GroupResults) (st2 : ResultStore),
    (seedRecords B g model recs st).1 = .ok st2 →
    lookupField st g = some grp →
    (∀ k ∈ keysOf recs, lookupField grp k = none) →
    (keysOf recs).Nodup →
    keysOf st2 = keysOf st ∧
    (∀ g2, g2 ≠ g → lookupField st2 g2 = lookupField st g2) ∧
    (∃ grp2, lookupField st2 g = some grp2 ∧ keysOf grp2 = keysOf grp ++ keysOf recs) := by
  induction recs with
  | nil =>
    intro st grp st2 hok hgrp hfresh hnd
    simp only [seedRecords] at hok
    cases hok
    exact ⟨rfl, fun g2 _ => rfl, grp, hgrp, by simp [keysOf]⟩
  | cons p rest ih =>
    obtain ⟨k, rv⟩ := p
    intro st grp st2 hok hgrp hfresh hnd
    simp only [seedRecords] at hok
    cases hun : unwindRecord B st rv with
    | error e => simp [hun] at hok
    | ok d =>
      simp only [hun] at hok
      cases hcr : B.create model d with
      | error msg => simp [hcr] at hok
      | ok created =>
        simp only [hcr] at hok
        have hsi : storeInsert st g k created = setField st g (setField grp k created) := by
          simp only [storeInsert, hgrp]
        rw [hsi] at hok
        have hkfresh : lookupField grp k = none :=
          hfresh k (show k ∈ k :: keysOf rest from List.mem_cons_self k _)
        have hknot : k ∉ keysOf grp := (lookupField_eq_none_iff grp k).mp hkfresh
        have hgmem : g ∈ keysOf st := lookupField_some_mem st g grp hgrp
        have hnd2 : k ∉ keysOf rest ∧ (keysOf rest).Nodup := List.nodup_cons.mp hnd
        have ihres := ih (setField st g (setField grp k created))
          (setField grp k created) st2 hok
          (lookupField_setField_same st g (setField grp k created))
          (by
            intro k2 hk2
            have hk2k : k2 ≠ k := fun hh => hnd2.1 (hh ▸ hk2)
            rw [lookupField_setField_other grp k k2 created hk2k]
            exact hfresh k2 (show k2 ∈ k :: keysOf rest from List.mem_cons_of_mem k hk2))
          hnd2.2
        obtain ⟨hkeys, hpres, grp2, hlk2, hkeys2⟩ := ihres
        refine ⟨?_, ?_, grp2, hlk2, ?_⟩
        · rw [hkeys, keysOf_setField, if_pos hgmem]
        · intro g2 hg2
          rw [hpres g2 hg2, lookupField_setField_other st g g2 _ hg2]
        · rw [hkeys2, keysOf_setField, if_neg hknot, List.append_assoc]
          rfl

end MongooseSeeder

namespace MongooseSeeder

/-- Store shape after a successful group loop: starting from a store
disjoint from the processed group names, the final store lists the old
group names followed by the processed ones in declaration order, old
groups are untouched, and each processed group holds exactly its
declared record keys in order. -/
theorem seedGroups_shape (B : Backend) (dc : Bool) (gs : List (String × Value)) :
    ∀ (st res : ResultStore),
    (seedGroups B dc gs st).1 = .ok res →
    (keysOf gs).Nodup →
    (∀ g ∈ keysOf gs, lookupField st g = none) →
    (∀ p ∈ gs, (recordKeys p.2).Nodup) →
    keysOf res = keysOf st ++ keysOf gs ∧
    (∀ g2, g2 ∉ keysOf gs → lookupField res g2 = lookupField st g2) ∧
    (∀ p ∈ gs, ∃ grp, lookupField res p.1 = some grp ∧ keysOf grp = recordKeys p.2) := by
  induction gs with
  | nil =>
    intro st res hok hnd habs hrk
    simp only [seedGroups] at hok
    cases hok
    exact ⟨by simp [keysOf], fun g2 _ => rfl, by simp⟩
  | cons p rest ih =>
    obtain ⟨g, gv⟩ := p
    intro st res hok hnd habs hrk
    simp only [seedGroups] at hok
    have hgabs : lookupField st g = none :=
      habs g (show g ∈ g :: keysOf rest from List.mem_cons_self g _)
    have hgnot : g ∉ keysOf st := (lookupField_eq_none_iff st g).mp hgabs
    have hnd2 : g ∉ keysOf rest ∧ (keysOf rest).Nodup := List.nodup_cons.mp hnd
    cases hsg : seedGroup B dc g gv (setField st g ([] : GroupResults)) with
    | mk r tr =>
      rw [hsg] at hok
      cases r with
      | error e => simp at hok
      | ok stG =>
        simp only at hok
        -- dissect the successful seedGroup: the group value must be an
        -- object with a truthy registered model, and stG comes from the
        -- record loop
        have hgroup : ∃ gf m model,
            gv = Value.obj gf ∧ lookupField gf "_model" = some m ∧ truthy m = true ∧
            B.modelLookup m = some model ∧
            (seedRecords B g model (removeField gf "_model")
              (setField st g ([] : GroupResults))).1 = .ok stG := by
          cases gv with
          | obj gf =>
            simp only [seedGroup] at hsg
            cases hm : lookupField gf "_model" with
            | none => simp [hm] at hsg
            | some m =>
              simp only [hm] at hsg
              by_cases htr : truthy m = true
              · simp only [htr, if_true] at hsg
                cases hml : B.modelLookup m with
                | none => simp [hml] at hsg
                | some model =>
                  simp only [hml] at hsg
                  refine ⟨gf, m, model, rfl, hm, htr, hml, ?_⟩
                  rw [Prod.mk.injEq] at hsg
                  exact hsg.1
              · simp [htr] at hsg
          | undef => simp [seedGroup] at hsg
          | null => simp [seedGroup] at hsg
          | bool b => simp [seedGroup] at hsg
          | num n => simp [seedGroup] at hsg
          | str s => simp [seedGroup] at hsg
          | arr l => simp [seedGroup] at hsg
        obtain ⟨gf, m, model, hgv, hm, htr, hml, hrecok⟩ := hgroup
        have hrknd : (recordKeys gv).Nodup :=
          hrk (g, gv) (List.mem_cons_self _ _)
        rw [hgv] at hrknd
        have hstore := seedRecords_store B g model (removeField gf "_model")
          (setField st g ([] : GroupResults)) [] stG hrecok
          (lookupField_setField_same st g ([] : GroupResults))
          (fun k _ => rfl) hrknd
        obtain ⟨hkeysG, hpresG, grpG, hlkG, hkeysGrp⟩ := hstore
        have hkeys0 : keysOf (setField st g ([] : GroupResults)) = keysOf st ++ [g] := by
          rw [keysOf_setField, if_neg hgnot]
        have ihres := ih stG res hok hnd2.2
          (by
            intro g2 hg2
            have hg2g : g2 ≠ g := fun hh => hnd2.1 (hh ▸ hg2)
            rw [hpresG g2 hg2g, lookupField_setField_other st g g2 _ hg2g]
            exact habs g2 (List.mem_cons_of_mem g hg2))
          (fun q hq => hrk q (List.mem_cons_of_mem _ hq))
        obtain ⟨hkeysR, hpresR, hgrpsR⟩ := ihres
        refine ⟨?_, ?_, ?_⟩
        · rw [hkeysR, hkeysG, hkeys0, List.append_assoc]
          rfl
        · intro g2 hg2
          have hg2g : g2 ≠ g := fun hh => hg2 (hh ▸ List.mem_cons_self g _)
          have hg2r : g2 ∉ keysOf rest := fun hh => hg2 (List.mem_cons_of_mem g hh)
          rw [hpresR g2 hg2r, hpresG g2 hg2g,
            lookupField_setField_other st g g2 _ hg2g]
        · intro q hq
          rcases List.mem_cons.mp hq with hq | hq
          · subst hq
            refine ⟨grpG, ?_, ?_⟩
            · rw [hpresR g hnd2.1, hlkG]
            · rw [hkeysGrp, hgv]
              rfl
          · exact hgrpsR q hq

end MongooseSeeder

namespace MongooseSeeder

/-- C1: when a run's returned future resolves, the result store maps
each declared group name (the spec's keys minus the dependency
declaration) to a group mapping whose keys are exactly that group's
declared record keys (minus the model marker), in declaration order, one
created record per key and nothing else. -/
theorem C1_result_shape (B : Backend) (o : Options) (fields : List (String × Value))
    (res : ResultStore)
    (hrun : (seedTop B o (.obj fields)).1 = .ok res)
    (hnodup : (keysOf (removeField fields "_dependencies")).Nodup)
    (hrecs : ∀ p ∈ removeField fields "_dependencies", (recordKeys p.2).Nodup) :
    keysOf res = keysOf (removeField fields "_dependencies") ∧
    ∀ p ∈ removeField fields "_dependencies",
      ∃ grp, lookupField res p.1 = some grp ∧ keysOf grp = recordKeys p.2 := by
  have hdata : (seedData B (isTrueV (effectiveOptions o).2) (.obj fields)).1 = .ok res := by
    simp only [seedTop, cloneDeepV_eq] at hrun
    by_cases hdd : isTrueV (effectiveOptions o).1 = true
    · rw [if_pos hdd] at hrun
      cases hdb : B.dropDatabaseResult with
      | error msg => rw [hdb] at hrun; simp at hrun
      | ok u => rw [hdb] at hrun; exact hrun
    · rw [if_neg hdd] at hrun
      exact hrun
  simp only [seedData] at hdata
  cases hdep : (match lookupField fields "_dependencies" with
    | some (.obj deps) => loadDeps B deps
    | _ => .ok ()) with
  | error e => rw [hdep] at hdata; simp at hdata
  | ok u =>
    rw [hdep] at hdata
    simp only at hdata
    have hshape := seedGroups_shape B (isTrueV (effectiveOptions o).2)
      (removeField fields "_dependencies") [] res hdata hnodup
      (fun g _ => rfl) hrecs
    exact ⟨by rw [hshape.1]; rfl, hshape.2.2⟩

/-- The spec used by the C1 witness: an empty dependency declaration and
two groups, the second referencing a record of the first. -/
def specC1 : List (String × Value) :=
  [("_dependencies", .obj []),
   ("users", .obj [("_model", .str "User"), ("u1", .obj [("name", .str "sam")])]),
   ("teams", .obj [("_model", .str "Team"),
     ("t1", .obj [("u", .str "->users.u1")]),
     ("t2", .obj [("n", .num 3)])])]

/-- A backend whose `create` always returns a fresh record with a truthy
identifier, so backward references resolve. -/
def idBackend : Backend :=
  { evalExpr := fun _ _ => none
    loadModule := fun _ => .ok ()
    modelLookup := fun m => match m with | .str mname => some mname | _ => none
    create := fun _ _ => .ok (.obj [("_id", .str "oid")])
    dropDatabaseResult := .ok () }

/-- Witness for C1: the concrete run resolves and its result store holds
exactly the declared groups `users` and `teams` with exactly the
declared record keys. -/
theorem C1_witness :
    keysOf [("users", [("u1", Value.obj [("_id", Value.str "oid")])]),
            ("teams", [("t1", Value.obj [("_id", Value.str "oid")]),
                       ("t2", Value.obj [("_id", Value.str "oid")])])] =
      keysOf (removeField specC1 "_dependencies") ∧
    ∀ p ∈ removeField specC1 "_dependencies",
      ∃ grp, lookupField [("users", [("u1", Value.obj [("_id", Value.str "oid")])]),
            ("teams", [("t1", Value.obj [("_id", Value.str "oid")]),
                       ("t2", Value.obj [("_id", Value.str "oid")])])] p.1 = some grp ∧
        keysOf grp = recordKeys p.2 :=
  C1_result_shape idBackend ⟨none, none⟩ specC1
    [("users", [("u1", Value.obj [("_id", Value.str "oid")])]),
     ("teams", [("t1", Value.obj [("_id", Value.str "oid")]),
                ("t2", Value.obj [("_id", Value.str "oid")])])]
    rfl (by decide) (by decide)

end MongooseSeeder

namespace MongooseSeeder

/-- One step of the group loop when the head group succeeds. -/
theorem seedGroups_cons_ok (B : Backend) (dc : Bool) (g : String) (gv : Value)
    (rest : List (String × Value)) (st stG : ResultStore) (tr : List Event)
    (h : seedGroup B dc g gv (setField st g ([] : GroupResults)) = (.ok stG, tr)) :
    seedGroups B dc ((g, gv) :: rest) st =
      ((seedGroups B dc rest stG).1, tr ++ (seedGroups B dc rest stG).2) := by
  simp only [seedGroups, h]

/-- One step of the group loop when the head group fails. -/
theorem seedGroups_cons_error (B : Backend) (dc : Bool) (g : String) (gv : Value)
    (rest : List (String × Value)) (st : ResultStore) (e : SeedError) (tr : List Event)
    (h : seedGroup B dc g gv (setField st g ([] : GroupResults)) = (.error e, tr)) :
    seedGroups B dc ((g, gv) :: rest) st = (.error e, tr) := by
  simp only [seedGroups, h]

/-- One step of the record loop when unwinding and creation succeed. -/
theorem seedRecords_cons_ok (B : Backend) (g model k : String) (rv : Value)
    (rest : List (String × Value)) (st : ResultStore) (d created : Value)
    (hun : unwindRecord B st rv = .ok d) (hcr : B.create model d = .ok created) :
    seedRecords B g model ((k, rv) :: rest) st =
      ((seedRecords B g model rest (storeInsert st g k created)).1,
        Event.create model d ::
          (seedRecords B g model rest (storeInsert st g k created)).2) := by
  simp only [seedRecords, hun, hcr]

/-- One step of the record loop when creation fails: the loop stops,
reporting the failure, having issued only the failing create. -/
theorem seedRecords_cons_createError (B : Backend) (g model k : String) (rv : Value)
    (rest : List (String × Value)) (st : ResultStore) (d : Value) (msg : String)
    (hun : unwindRecord B st rv = .ok d) (hcr : B.create model d = .error msg) :
    seedRecords B g model ((k, rv) :: rest) st =
      (.error (.backendFailed msg), [Event.create model d]) := by
  simp only [seedRecords, hun, hcr]

/-- Decomposition of the group loop over an append whose first part
succeeds: the tail runs from the first part's final store, and the
traces concatenate. -/
theorem seedGroups_append (B : Backend) (dc : Bool) (xs ys : List (String × Value)) :
    ∀ st st2, (seedGroups B dc xs st).1 = .ok st2 →
    seedGroups B dc (xs ++ ys) st =
      ((seedGroups B dc ys st2).1,
        (seedGroups B dc xs st).2 ++ (seedGroups B dc ys st2).2) := by
  induction xs with
  | nil =>
    intro st st2 hok
    simp only [seedGroups] at hok
    cases hok
    rfl
  | cons p rest ih =>
    obtain ⟨g, gv⟩ := p
    intro st st2 hok
    cases hsg : seedGroup B dc g gv (setField st g ([] : GroupResults)) with
    | mk r tr =>
      cases r with
      | error e =>
        rw [seedGroups_cons_error B dc g gv rest st e tr hsg] at hok
        cases hok
      | ok stG =>
        rw [seedGroups_cons_ok B dc g gv rest st stG tr hsg] at hok
        rw [List.cons_append,
          seedGroups_cons_ok B dc g gv (rest ++ ys) st stG tr hsg,
          seedGroups_cons_ok B dc g gv rest st stG tr hsg,
          ih stG st2 hok]
        simp [List.append_assoc]

/-- Decomposition of the record loop over an append whose first part
succeeds. -/
theorem seedRecords_append (B : Backend) (g model : String)
    (xs ys : List (String × Value)) :
    ∀ st st2, (seedRecords B g model xs st).1 = .ok st2 →
    seedRecords B g model (xs ++ ys) st =
      ((seedRecords B g model ys st2).1,
        (seedRecords B g model xs st).2 ++ (seedRecords B g model ys st2).2) := by
  induction xs with
  | nil =>
    intro st st2 hok
    simp only [seedRecords] at hok
    cases hok
    rfl
  | cons p rest ih =>
    obtain ⟨k, rv⟩ := p
    intro st st2 hok
    cases hun : unwindRecord B st rv with
    | error e => simp [seedRecords, hun] at hok
    | ok d =>
      cases hcr : B.create model d with
      | error msg => simp [seedRecords, hun, hcr] at hok
      | ok created =>
        rw [seedRecords_cons_ok B g model k rv rest st d created hun hcr] at hok
        rw [List.cons_append,
          seedRecords_cons_ok B g model k rv (rest ++ ys) st d created hun hcr,
          seedRecords_cons_ok B g model k rv rest st d created hun hcr,
          ih _ st2 hok]
        rfl

end MongooseSeeder

namespace MongooseSeeder

/-- When the whole-database drop succeeds (or is skipped), `seed` is the
inner `_seed` run on the deep copy, with the drop request prepended to
the trace when it was effectively requested. -/
theorem seedTop_eq (B : Backend) (o : Options) (data : Value)
    (hdrop : B.dropDatabaseResult = .ok ()) :
    seedTop B o data =
      ((seedData B (isTrueV (effectiveOptions o).2) (cloneDeepV data)).1,
        (if isTrueV (effectiveOptions o).1 then [Event.dropDatabase] else []) ++
          (seedData B (isTrueV (effectiveOptions o).2) (cloneDeepV data)).2) := by
  simp only [seedTop]
  by_cases hdd : isTrueV (effectiveOptions o).1 = true
  · simp [hdd, hdrop]
  · simp [hdd]

/-- When the declared dependencies load, `_seed` is the group loop over
the spec without its dependency declaration. -/
theorem seedData_obj_ok (B : Backend) (dc : Bool) (fields : List (String × Value))
    (hdeps : (match lookupField fields "_dependencies" with
      | some (.obj deps) => loadDeps B deps
      | _ => .ok ()) = .ok ()) :
    seedData B dc (.obj fields) =
      seedGroups B dc (removeField fields "_dependencies") [] := by
  simp only [seedData, hdeps]

/-- C8: when the run reaches a group whose spec has no model marker, it
fails with the missing-model error, and the request trace is exactly
what the groups before it produced: no create is issued for the failing
group or any group declared after it (creates for earlier groups may
already have happened). -/
theorem C8_missing_model (B : Backend) (o : Options)
    (fields gs1 gs2 : List (String × Value)) (g : String)
    (gf : List (String × Value)) (st1 : ResultStore)
    (hsplit : removeField fields "_dependencies" = gs1 ++ (g, .obj gf) :: gs2)
    (hdeps : (match lookupField fields "_dependencies" with
      | some (.obj deps) => loadDeps B deps
      | _ => .ok ()) = .ok ())
    (hdrop : B.dropDatabaseResult = .ok ())
    (hmodel : lookupField gf "_model" = none)
    (h1 : (seedGroups B (isTrueV (effectiveOptions o).2) gs1 []).1 = .ok st1) :
    (seedTop B o (.obj fields)).1 = .error .missingModel ∧
    (seedTop B o (.obj fields)).2 =
      (if isTrueV (effectiveOptions o).1 then [Event.dropDatabase] else []) ++
      (seedGroups B (isTrueV (effectiveOptions o).2) gs1 []).2 := by
  have hsge : seedGroup B (isTrueV (effectiveOptions o).2) g (.obj gf)
      (setField st1 g ([] : GroupResults)) = (.error .missingModel, []) := by
    simp [seedGroup, hmodel]
  have htail := seedGroups_cons_error B (isTrueV (effectiveOptions o).2) g (.obj gf)
    gs2 st1 .missingModel [] hsge
  have happ := seedGroups_append B (isTrueV (effectiveOptions o).2) gs1
    ((g, .obj gf) :: gs2) [] st1 h1
  rw [seedTop_eq B o (.obj fields) hdrop, cloneDeepV_eq,
    seedData_obj_ok B _ fields hdeps, hsplit, happ, htail]
  exact ⟨rfl, by simp⟩

/-- The spec used by the C8 witness: group `a` succeeds, group `bad` has
no model marker, group `c` comes after it. -/
def specC8 : List (String × Value) :=
  [("a", .obj [("_model", .str "A"), ("r", .obj [])]),
   ("bad", .obj [("x", .num 1)]),
   ("c", .obj [("_model", .str "C"), ("r", .obj [])])]

/-- Witness for C8: the concrete run fails with the missing-model error
after having issued only the database drop and the create for group
`a`'s single record — nothing for `bad` or `c`. -/
theorem C8_witness :
    (seedTop idBackend ⟨none, none⟩ (.obj specC8)).1 = .error .missingModel ∧
    (seedTop idBackend ⟨none, none⟩ (.obj specC8)).2 =
      (if isTrueV (effectiveOptions ⟨none, none⟩).1 then [Event.dropDatabase] else []) ++
      (seedGroups idBackend (isTrueV (effectiveOptions ⟨none, none⟩).2)
        [("a", Value.obj [("_model", Value.str "A"), ("r", Value.obj [])])] []).2 :=
  C8_missing_model idBackend ⟨none, none⟩ specC8
    [("a", Value.obj [("_model", Value.str "A"), ("r", Value.obj [])])]
    [("c", Value.obj [("_model", Value.str "C"), ("r", Value.obj [])])]
    "bad" [("x", Value.num 1)]
    [("a", [("r", Value.obj [("_id", Value.str "oid")])])]
    rfl rfl rfl rfl rfl

end MongooseSeeder

namespace MongooseSeeder

/-- C7: when a backend create fails, the run aborts at once — the
request trace ends with the failing create, so no further record key of
that group and no later group is processed — and the failure reaches
both completion channels: the promise is rejected with the error and the
callback is invoked exactly once, with that error and no result. -/
theorem C7_create_failure_aborts (B : Backend) (o : Options)
    (fields gs1 gs2 recs1 recs2 : List (String × Value))
    (g k : String) (gf : List (String × Value)) (m : Value) (model : String)
    (rv d : Value) (msg : String) (st1 st2 : ResultStore)
    (hsplit : removeField fields "_dependencies" = gs1 ++ (g, .obj gf) :: gs2)
    (hdeps : (match lookupField fields "_dependencies" with
      | some (.obj deps) => loadDeps B deps
      | _ => .ok ()) = .ok ())
    (hdrop : B.dropDatabaseResult = .ok ())
    (h1 : (seedGroups B (isTrueV (effectiveOptions o).2) gs1 []).1 = .ok st1)
    (hm : lookupField gf "_model" = some m)
    (htm : truthy m = true)
    (hml : B.modelLookup m = some model)
    (hrecs : removeField gf "_model" = recs1 ++ (k, rv) :: recs2)
    (h2 : (seedRecords B g model recs1 (setField st1 g ([] : GroupResults))).1 = .ok st2)
    (hun : unwindRecord B st2 rv = .ok d)
    (hfail : B.create model d = .error msg) :
    (seedTop B o (.obj fields)).1 = .error (.backendFailed msg) ∧
    (seedTop B o (.obj fields)).2 =
      (if isTrueV (effectiveOptions o).1 then [Event.dropDatabase] else []) ++
      ((seedGroups B (isTrueV (effectiveOptions o).2) gs1 []).2 ++
       ((if isTrueV (effectiveOptions o).2 then [Event.dropCollection model] else []) ++
        ((seedRecords B g model recs1 (setField st1 g ([] : GroupResults))).2 ++
         [Event.create model d]))) ∧
    runDone (seedTop B o (.obj fields)).1 =
      ⟨some (.backendFailed msg), none, [(some (.backendFailed msg), none)]⟩ := by
  have hrecrun : seedRecords B g model (removeField gf "_model")
      (setField st1 g ([] : GroupResults)) =
      (.error (.backendFailed msg),
        (seedRecords B g model recs1 (setField st1 g ([] : GroupResults))).2 ++
          [Event.create model d]) := by
    rw [hrecs, seedRecords_append B g model recs1 ((k, rv) :: recs2) _ st2 h2,
      seedRecords_cons_createError B g model k rv recs2 st2 d msg hun hfail]
  have hsge : seedGroup B (isTrueV (effectiveOptions o).2) g (.obj gf)
      (setField st1 g ([] : GroupResults)) =
      (.error (.backendFailed msg),
        (if isTrueV (effectiveOptions o).2 then [Event.dropCollection model] else []) ++
        ((seedRecords B g model recs1 (setField st1 g ([] : GroupResults))).2 ++
         [Event.create model d])) := by
    simp only [seedGroup, hm, htm, if_true, hml, hrecrun]
  have htail := seedGroups_cons_error B (isTrueV (effectiveOptions o).2) g (.obj gf)
    gs2 st1 (.backendFailed msg) _ hsge
  have happ := seedGroups_append B (isTrueV (effectiveOptions o).2) gs1
    ((g, .obj gf) :: gs2) [] st1 h1
  rw [seedTop_eq B o (.obj fields) hdrop, cloneDeepV_eq,
    seedData_obj_ok B _ fields hdeps, hsplit, happ, htail]
  exact ⟨rfl, rfl, rfl⟩

/-- The spec used by the C7 witness: two groups; the second record of
the second group triggers the backend failure. -/
def specC7 : List (String × Value) :=
  [("a", .obj [("_model", .str "A"), ("r", .obj [])]),
   ("b", .obj [("_model", .str "B"),
     ("r1", .obj [("ok", .num 1)]),
     ("r2", .obj [("boom", .num 1)]),
     ("r3", .obj [("never", .num 1)])])]

/-- A backend that fails `create` exactly on records carrying a `boom`
field, otherwise creating records with a truthy identifier. -/
def boomBackend : Backend :=
  { evalExpr := fun _ _ => none
    loadModule := fun _ => .ok ()
    modelLookup := fun m => match m with | .str mname => some mname | _ => none
    create := fun _ dv =>
      match dv with
      | .obj [("boom", _)] => .error "db down"
      | _ => .ok (.obj [("_id", .str "oid")])
    dropDatabaseResult := .ok () }

/-- Witness for C7: the concrete run rejects with the pass-through
backend failure; its trace ends at the failing create (record `r3` and
no later group appear), and both completion channels carry the error,
the callback being invoked exactly once. -/
theorem C7_witness :
    (seedTop boomBackend ⟨none, none⟩ (.obj specC7)).1 =
      .error (.backendFailed "db down") ∧
    (seedTop boomBackend ⟨none, none⟩ (.obj specC7)).2 =
      (if isTrueV (effectiveOptions ⟨none, none⟩).1 then [Event.dropDatabase] else []) ++
      ((seedGroups boomBackend (isTrueV (effectiveOptions ⟨none, none⟩).2)
          [("a", Value.obj [("_model", Value.str "A"), ("r", Value.obj [])])] []).2 ++
       ((if isTrueV (effectiveOptions ⟨none, none⟩).2
          then [Event.dropCollection "B"] else []) ++
        ((seedRecords boomBackend "b" "B" [("r1", Value.obj [("ok", Value.num 1)])]
            (setField [("a", [("r", Value.obj [("_id", Value.str "oid")])])] "b"
              ([] : GroupResults))).2 ++
         [Event.create "B" (Value.obj [("boom", Value.num 1)])]))) ∧
    runDone (seedTop boomBackend ⟨none, none⟩ (.obj specC7)).1 =
      ⟨some (.backendFailed "db down"), none,
        [(some (.backendFailed "db down"), none)]⟩ :=
  C7_create_failure_aborts boomBackend ⟨none, none⟩ specC7
    [("a", Value.obj [("_model", Value.str "A"), ("r", Value.obj [])])]
    []
    [("r1", Value.obj [("ok", Value.num 1)])]
    [("r3", Value.obj [("never", Value.num 1)])]
    "b" "r2"
    [("_model", Value.str "B"),
     ("r1", Value.obj [("ok", Value.num 1)]),
     ("r2", Value.obj [("boom", Value.num 1)]),
     ("r3", Value.obj [("never", Value.num 1)])]
    (Value.str "B") "B"
    (Value.obj [("boom", Value.num 1)]) (Value.obj [("boom", Value.num 1)])
    "db down"
    [("a", [("r", Value.obj [("_id", Value.str "oid")])])]
    [("a", [("r", Value.obj [("_id", Value.str "oid")])]),
     ("b", [("r1", Value.obj [("_id", Value.str "oid")])])]
    rfl rfl rfl rfl rfl rfl rfl rfl rfl rfl rfl

end MongooseSeeder

namespace MongooseSeeder

/-! Heap model for the deep-copy / caller-isolation property (C9).

JavaScript objects live on a heap and are passed by reference, so the
in-place writes `_seed` performs on its argument (`delete
data._dependencies` at src/index.js line 50 and `delete value._model` at
line 72 — the only in-place writes the engine performs on spec data; all
other operations read, or build fresh objects) would be visible to the
caller if `seed` did not pass `_.cloneDeep(data)` (lines 262/267).  The
heap model makes this observable: objects are heap entries addressed by
naturals, `cloneH` embeds `_.cloneDeep` as a graph copy allocating only
fresh addresses, `seedMutationsH` embeds the deletes the run performs on
its input (parametrised by how many groups were reached before the run
ended), and `readback` recovers the `Value` a heap value denotes. -/

/-- A heap-level value: an immediate scalar, an array of heap values, or
a reference to a heap object. -/
inductive HVal where
  | prim : Value → HVal
  | harr : List HVal → HVal
  | href : Nat → HVal

/-- Fields of a heap object. -/
abbrev HFields := List (String × HVal)

/-- A heap: addressed objects. -/
abbrev Heap := List (Nat × HFields)

/-- First entry at an address. -/
def lookupHeap : Heap → Nat → Option HFields
  | [], _ => none
  | (a, f) :: rest, b => if a = b then some f else lookupHeap rest b

/-- The addresses a heap defines. -/
def domHeap (h : Heap) : List Nat := h.map Prod.fst

mutual

/-- The value a heap value denotes, with fuel bounding the dereferencing
depth. -/
def readback (h : Heap) : Nat → HVal → Option Value
  | 0, _ => none
  | _ + 1, .prim v => some v
  | fuel + 1, .harr es =>
    match readbackList h fuel es with
    | some vs => some (.arr vs)
    | none => none
  | fuel + 1, .href a =>
    match lookupHeap h a with
    | none => none
    | some fs =>
      match readbackFields h fuel fs with
      | some fs2 => some (.obj fs2)
      | none => none

/-- Element-list part of `readback`. -/
def readbackList (h : Heap) : Nat → List HVal → Option (List Value)
  | 0, _ => none
  | _ + 1, [] => some []
  | fuel + 1, v :: rest =>
    match readback h fuel v, readbackList h fuel rest with
    | some v2, some r2 => some (v2 :: r2)
    | _, _ => none

/-- Field-list part of `readback`. -/
def readbackFields (h : Heap) : Nat → HFields → Option (List (String × Value))
  | 0, _ => none
  | _ + 1, [] => some []
  | fuel + 1, (k, v) :: rest =>
    match readback h fuel v, readbackFields h fuel rest with
    | some v2, some r2 => some ((k, v2) :: r2)
    | _, _ => none

end

mutual

/-- Embedding of `_.cloneDeep`: copy the graph reachable from a heap
value, allocating the copies at `next, next + 1, ...` — only fresh
addresses when `next` exceeds every existing address.  Returns the
copied value, the newly allocated entries and the next free address.
(Shared substructure is duplicated; `readback` cannot observe sharing,
so this is denotation-preserving.) -/
def cloneH (h : Heap) : Nat → HVal → Nat → Option (HVal × Heap × Nat)
  | 0, _, _ => none
  | _ + 1, .prim v, next => some (.prim v, [], next)
  | fuel + 1, .harr es, next =>
    match cloneHList h fuel es next with
    | some (vs, nh, nx) => some (.harr vs, nh, nx)
    | none => none
  | fuel + 1, .href a, next =>
    match lookupHeap h a with
    | none => none
    | some fs =>
      match cloneHFields h fuel fs (next + 1) with
      | some (fs2, nh, nx) => some (.href next, (next, fs2) :: nh, nx)
      | none => none

/-- Element-list part of `cloneH`, threading the allocator. -/
def cloneHList (h : Heap) : Nat → List HVal → Nat → Option (List HVal × Heap × Nat)
  | 0, _, _ => none
  | _ + 1, [], next => some ([], [], next)
  | fuel + 1, v :: rest, next =>
    match cloneH h fuel v next with
    | none => none
    | some (v2, nh1, nx1) =>
      match cloneHList h fuel rest nx1 with
      | none => none
      | some (vs, nh2, nx2) => some (v2 :: vs, nh1 ++ nh2, nx2)

/-- Field-list part of `cloneH`. -/
def cloneHFields (h : Heap) : Nat → HFields → Nat → Option (HFields × Heap × Nat)
  | 0, _, _ => none
  | _ + 1, [], next => some ([], [], next)
  | fuel + 1, (k, v) :: rest, next =>
    match cloneH h fuel v next with
    | none => none
    | some (v2, nh1, nx1) =>
      match cloneHFields h fuel rest nx1 with
      | none => none
      | some (fs, nh2, nx2) => some ((k, v2) :: fs, nh1 ++ nh2, nx2)

end

mutual

/-- The heap addresses a heap value references. -/
def refsOf : HVal → List Nat
  | .prim _ => []
  | .harr es => refsOfList es
  | .href a => [a]

/-- References of an element list. -/
def refsOfList : List HVal → List Nat
  | [] => []
  | v :: rest => refsOf v ++ refsOfList rest

/-- References of a field list. -/
def refsOfFields : HFields → List Nat
  | [] => []
  | (_, v) :: rest => refsOf v ++ refsOfFields rest

end

/-- Every reference stored in the heap points into the heap. -/
def heapClosed (h : Heap) : Prop :=
  ∀ e ∈ h, ∀ a ∈ refsOfFields e.2, a ∈ domHeap h

/-- All entries at addresses `≥ next` only reference addresses `≥ next`
(the freshly allocated part of a heap is self-contained). -/
def freshPart (h : Heap) (next : Nat) : Prop :=
  ∀ e ∈ h, next ≤ e.1 → ∀ a ∈ refsOfFields e.2, next ≤ a

/-- Embedding of `delete o[key]` on the heap: remove the binding from
the object stored at address `t`. -/
def deleteFieldH (h : Heap) (t : Nat) (key : String) : Heap :=
  h.map fun e => if e.1 = t then (e.1, removeField e.2 key) else e

/-- Delete the `_model` binding of every referenced group object
(src/index.js line 72, performed once per group the run reaches). -/
def deleteModelAt : List HVal → Heap → Heap
  | [], h => h
  | .href a :: rest, h => deleteModelAt rest (deleteFieldH h a "_model")
  | _ :: rest, h => deleteModelAt rest h

/-- All in-place writes `_seed` performs on its input object: drop the
`_dependencies` binding of the root, then drop the `_model` binding of
the first `n` group values (the run deletes one marker per group it
reaches before completing or aborting; quantifying over `n` covers every
abort point). -/
def seedMutationsH (h : Heap) (root : HVal) (n : Nat) : Heap :=
  match root with
  | .href a =>
    let h1 := deleteFieldH h a "_dependencies"
    (match lookupHeap h1 a with
     | some fs => deleteModelAt ((fs.take n).map Prod.snd) h1
     | none => h1)
  | _ => h

end MongooseSeeder

namespace MongooseSeeder

/-- A defined address has an entry. -/
theorem mem_domHeap_lookup (h : Heap) (a : Nat) (ha : a ∈ domHeap h) :
    ∃ fs, lookupHeap h a = some fs := by
  induction h with
  | nil => simp [domHeap] at ha
  | cons e rest ih =>
    by_cases he : e.1 = a
    · exact ⟨e.2, by simp [lookupHeap, he]⟩
    · have : a ∈ domHeap rest := by
        simp [domHeap] at ha ⊢
        rcases ha with ha | ha
        · exact absurd ha.symm he
        · exact ha
      obtain ⟨fs, hfs⟩ := ih this
      exact ⟨fs, by simp [lookupHeap, he, hfs]⟩

/-- A successful heap lookup is an entry of the heap. -/
theorem lookupHeap_some_mem (h : Heap) (a : Nat) (fs : HFields)
    (hfs : lookupHeap h a = some fs) : (a, fs) ∈ h := by
  induction h with
  | nil => simp [lookupHeap] at hfs
  | cons e rest ih =>
    obtain ⟨a1, f1⟩ := e
    by_cases he : a1 = a
    · subst he
      simp only [lookupHeap, if_pos rfl] at hfs
      cases hfs
      exact List.mem_cons_self _ _
    · simp only [lookupHeap, he, if_false] at hfs
      exact List.mem_cons_of_mem _ (ih hfs)

/-- Lookup in an extended heap agrees on defined addresses. -/
theorem lookupHeap_append_left (h h2 : Heap) (a : Nat) (ha : a ∈ domHeap h) :
    lookupHeap (h ++ h2) a = lookupHeap h a := by
  induction h with
  | nil => simp [domHeap] at ha
  | cons e rest ih =>
    obtain ⟨a1, f1⟩ := e
    by_cases he : a1 = a
    · simp [lookupHeap, he]
    · have : a ∈ domHeap rest := by
        simp [domHeap] at ha ⊢
        rcases ha with ha | ha
        · exact absurd ha.symm he
        · exact ha
      simp [lookupHeap, he, ih this]

/-- Unfolding of `deleteFieldH` on a cons cell. -/
theorem deleteFieldH_cons (a1 : Nat) (f1 : HFields) (rest : Heap) (t : Nat)
    (key : String) :
    deleteFieldH ((a1, f1) :: rest) t key =
      (if a1 = t then (a1, removeField f1 key) else (a1, f1)) :: deleteFieldH rest t key := by
  by_cases h1 : a1 = t
  · simp [deleteFieldH, h1]
  · simp [deleteFieldH, h1]

/-- Deleting a field at one address does not change lookups at other
addresses. -/
theorem lookupHeap_deleteFieldH_other (h : Heap) (t : Nat) (key : String) (a : Nat)
    (ha : a ≠ t) : lookupHeap (deleteFieldH h t key) a = lookupHeap h a := by
  induction h with
  | nil => rfl
  | cons e rest ih =>
    obtain ⟨a1, f1⟩ := e
    rw [deleteFieldH_cons]
    by_cases h1 : a1 = t
    · rw [if_pos h1]
      subst h1
      have hne : a1 ≠ a := fun hh => ha hh.symm
      simp only [lookupHeap, hne, if_false]
      exact ih
    · rw [if_neg h1]
      simp only [lookupHeap]
      by_cases h2 : a1 = a
      · rw [if_pos h2, if_pos h2]
      · rw [if_neg h2, if_neg h2]
        exact ih

/-- References of a field list survive a field removal. -/
theorem refsOfFields_removeField_sub (fs : HFields) (key : String) (a : Nat)
    (ha : a ∈ refsOfFields (removeField fs key)) : a ∈ refsOfFields fs := by
  induction fs with
  | nil => simp [removeField, refsOfFields] at ha
  | cons p rest ih =>
    obtain ⟨k, v⟩ := p
    by_cases hk : k = key
    · simp only [removeField, hk, if_true] at ha
      simp only [refsOfFields, List.mem_append]
      exact Or.inr (ih ha)
    · simp only [removeField, hk, if_false, refsOfFields, List.mem_append] at ha ⊢
      rcases ha with ha | ha
      · exact Or.inl ha
      · exact Or.inr (ih ha)

/-- Deleting a field preserves the self-containedness of the fresh part
of a heap. -/
theorem freshPart_deleteFieldH (h : Heap) (next t : Nat) (key : String)
    (hfp : freshPart h next) : freshPart (deleteFieldH h t key) next := by
  intro e he hle a ha
  simp only [deleteFieldH, List.mem_map] at he
  obtain ⟨e0, he0, heq⟩ := he
  by_cases h0 : e0.1 = t
  · rw [if_pos h0] at heq
    subst heq
    exact hfp e0 he0 hle a (refsOfFields_removeField_sub e0.2 key a ha)
  · rw [if_neg h0] at heq
    subst heq
    exact hfp e0 he0 hle a ha

/-- Mapping the `_model` deletion over fresh group references keeps
lookups below `next` intact and preserves fresh-part closure. -/
theorem deleteModelAt_props (next : Nat) :
    ∀ (vals : List HVal) (h : Heap),
    (∀ a ∈ refsOfList vals, next ≤ a) →
    freshPart h next →
    (∀ b, b < next → lookupHeap (deleteModelAt vals h) b = lookupHeap h b) ∧
    freshPart (deleteModelAt vals h) next := by
  intro vals
  induction vals with
  | nil => exact fun h _ hfp => ⟨fun b _ => rfl, hfp⟩
  | cons v rest ih =>
    intro h hrefs hfp
    cases v with
    | href a =>
      have ha : next ≤ a := hrefs a (by simp [refsOfList, refsOf])
      have hrest : ∀ b ∈ refsOfList rest, next ≤ b := by
        intro b hb
        refine hrefs b ?_
        simp only [refsOfList, List.mem_append]
        right
        exact hb
      have hstep := ih (deleteFieldH h a "_model") hrest
        (freshPart_deleteFieldH h next a "_model" hfp)
      refine ⟨?_, hstep.2⟩
      intro b hb
      rw [show deleteModelAt (HVal.href a :: rest) h =
          deleteModelAt rest (deleteFieldH h a "_model") from rfl]
      rw [hstep.1 b hb]
      exact lookupHeap_deleteFieldH_other h a "_model" b
        (fun hh => Nat.lt_irrefl b (Nat.lt_of_lt_of_le hb (hh ▸ ha)))
    | prim w =>
      have hrest : ∀ b ∈ refsOfList rest, next ≤ b := by
        intro b hb
        refine hrefs b ?_
        simp only [refsOfList, List.mem_append]
        right
        exact hb
      exact ih h hrest hfp
    | harr es =>
      have hrest : ∀ b ∈ refsOfList rest, next ≤ b := by
        intro b hb
        refine hrefs b ?_
        simp only [refsOfList, List.mem_append]
        right
        exact hb
      exact ih h hrest hfp

end MongooseSeeder

namespace MongooseSeeder

/-- Reading back a value whose reachable part lies in a closed heap is
unaffected by changes outside that heap's addresses. -/
theorem readback_ext (h h2 : Heap) (hcl : heapClosed h)
    (hlk : ∀ a ∈ domHeap h, lookupHeap h2 a = lookupHeap h a) :
    ∀ fuel : Nat,
      (∀ v, (∀ a ∈ refsOf v, a ∈ domHeap h) →
        readback h2 fuel v = readback h fuel v) ∧
      (∀ l, (∀ a ∈ refsOfList l, a ∈ domHeap h) →
        readbackList h2 fuel l = readbackList h fuel l) ∧
      (∀ fs, (∀ a ∈ refsOfFields fs, a ∈ domHeap h) →
        readbackFields h2 fuel fs = readbackFields h fuel fs) := by
  intro fuel
  induction fuel with
  | zero => exact ⟨fun v _ => rfl, fun l _ => rfl, fun fs _ => rfl⟩
  | succ fuel ih =>
    refine ⟨?_, ?_, ?_⟩
    · intro v hv
      cases v with
      | prim w => rfl
      | harr es =>
        simp only [readback]
        rw [ih.2.1 es (fun a ha => hv a (by simpa [refsOf] using ha))]
      | href a =>
        have ha : a ∈ domHeap h := hv a (by simp [refsOf])
        obtain ⟨fs, hfs⟩ := mem_domHeap_lookup h a ha
        have hmem := lookupHeap_some_mem h a fs hfs
        simp only [readback, hlk a ha, hfs]
        rw [ih.2.2 fs (fun b hb => hcl (a, fs) hmem b hb)]
    · intro l hl
      cases l with
      | nil => rfl
      | cons v rest =>
        simp only [readbackList]
        rw [ih.1 v (fun a ha => hl a (by simp [refsOfList]; left; exact ha)),
          ih.2.1 rest (fun a ha => hl a (by simp [refsOfList]; right; exact ha))]
    · intro fs
      cases fs with
      | nil => exact fun _ => rfl
      | cons p rest =>
        obtain ⟨k, v⟩ := p
        intro hfs
        simp only [readbackFields]
        rw [ih.1 v (fun a ha => hfs a (by simp [refsOfFields]; left; exact ha)),
          ih.2.2 rest (fun a ha => hfs a (by simp [refsOfFields]; right; exact ha))]

/-- Freshness of a clone: the copy only references addresses at or above
the allocation cursor, every newly allocated entry sits at or above it,
new entries only reference at or above it, and the cursor never moves
backwards. -/
theorem cloneH_range (h : Heap) :
    ∀ fuel : Nat,
      (∀ v next r nh nx, cloneH h fuel v next = some (r, nh, nx) →
        next ≤ nx ∧ (∀ a ∈ refsOf r, next ≤ a) ∧
        (∀ e ∈ nh, next ≤ e.1 ∧ ∀ a ∈ refsOfFields e.2, next ≤ a)) ∧
      (∀ l next rl nh nx, cloneHList h fuel l next = some (rl, nh, nx) →
        next ≤ nx ∧ (∀ a ∈ refsOfList rl, next ≤ a) ∧
        (∀ e ∈ nh, next ≤ e.1 ∧ ∀ a ∈ refsOfFields e.2, next ≤ a)) ∧
      (∀ fs next rf nh nx, cloneHFields h fuel fs next = some (rf, nh, nx) →
        next ≤ nx ∧ (∀ a ∈ refsOfFields rf, next ≤ a) ∧
        (∀ e ∈ nh, next ≤ e.1 ∧ ∀ a ∈ refsOfFields e.2, next ≤ a)) := by
  intro fuel
  induction fuel with
  | zero =>
    refine ⟨?_, ?_, ?_⟩
    all_goals intro x next r nh nx hcl
    all_goals simp [cloneH, cloneHList, cloneHFields] at hcl
  | succ fuel ih =>
    refine ⟨?_, ?_, ?_⟩
    · intro v next r nh nx hc
      cases v with
      | prim w =>
        simp only [cloneH] at hc
        cases hc
        exact ⟨Nat.le_refl next, by simp [refsOf], by simp⟩
      | harr es =>
        simp only [cloneH] at hc
        cases hes : cloneHList h fuel es next with
        | none => simp [hes] at hc
        | some q =>
          obtain ⟨vs, nhq, nxq⟩ := q
          simp only [hes] at hc
          cases hc
          obtain ⟨h1, h2, h3⟩ := ih.2.1 _ _ _ _ _ hes
          exact ⟨h1, by simpa [refsOf] using h2, h3⟩
      | href a =>
        simp only [cloneH] at hc
        cases hla : lookupHeap h a with
        | none => simp [hla] at hc
        | some fs =>
          simp only [hla] at hc
          cases hfs : cloneHFields h fuel fs (next + 1) with
          | none => simp [hfs] at hc
          | some q =>
            obtain ⟨fs2, nhq, nxq⟩ := q
            simp only [hfs] at hc
            cases hc
            obtain ⟨h1, h2, h3⟩ := ih.2.2 _ _ _ _ _ hfs
            refine ⟨Nat.le_trans (Nat.le_succ next) h1, ?_, ?_⟩
            · intro a2 ha2
              simp only [refsOf, List.mem_singleton] at ha2
              exact ha2 ▸ Nat.le_refl next
            · intro e he
              rcases List.mem_cons.mp he with he | he
              · subst he
                exact ⟨Nat.le_refl next,
                  fun b hb => Nat.le_trans (Nat.le_succ next) (h2 b hb)⟩
              · obtain ⟨he1, he2⟩ := h3 e he
                exact ⟨Nat.le_trans (Nat.le_succ next) he1,
                  fun b hb => Nat.le_trans (Nat.le_succ next) (he2 b hb)⟩
    · intro l next rl nh nx hc
      cases l with
      | nil =>
        simp only [cloneHList] at hc
        cases hc
        exact ⟨Nat.le_refl next, by simp [refsOfList], by simp⟩
      | cons v rest =>
        simp only [cloneHList] at hc
        cases hv : cloneH h fuel v next with
        | none => simp [hv] at hc
        | some q =>
          obtain ⟨v2, nhq, nxq⟩ := q
          simp only [hv] at hc
          cases hrest : cloneHList h fuel rest nxq with
          | none => simp [hrest] at hc
          | some q2 =>
            obtain ⟨vs, nh2, nx2⟩ := q2
            simp only [hrest] at hc
            cases hc
            obtain ⟨a1, a2, a3⟩ := ih.1 _ _ _ _ _ hv
            obtain ⟨b1, b2, b3⟩ := ih.2.1 _ _ _ _ _ hrest
            refine ⟨Nat.le_trans a1 b1, ?_, ?_⟩
            · intro b hb
              simp only [refsOfList, List.mem_append] at hb
              rcases hb with hb | hb
              · exact a2 b hb
              · exact Nat.le_trans a1 (b2 b hb)
            · intro e he
              rcases List.mem_append.mp he with he | he
              · exact a3 e he
              · obtain ⟨he1, he2⟩ := b3 e he
                exact ⟨Nat.le_trans a1 he1, fun b hb => Nat.le_trans a1 (he2 b hb)⟩
    · intro fs next rf nh nx hc
      cases fs with
      | nil =>
        simp only [cloneHFields] at hc
        cases hc
        exact ⟨Nat.le_refl next, by simp [refsOfFields], by simp⟩
      | cons p rest =>
        obtain ⟨k, v⟩ := p
        simp only [cloneHFields] at hc
        cases hv : cloneH h fuel v next with
        | none => simp [hv] at hc
        | some q =>
          obtain ⟨v2, nhq, nxq⟩ := q
          simp only [hv] at hc
          cases hrest : cloneHFields h fuel rest nxq with
          | none => simp [hrest] at hc
          | some q2 =>
            obtain ⟨fs2, nh2, nx2⟩ := q2
            simp only [hrest] at hc
            cases hc
            obtain ⟨a1, a2, a3⟩ := ih.1 _ _ _ _ _ hv
            obtain ⟨b1, b2, b3⟩ := ih.2.2 _ _ _ _ _ hrest
            refine ⟨Nat.le_trans a1 b1, ?_, ?_⟩
            · intro b hb
              simp only [refsOfFields, List.mem_append] at hb
              rcases hb with hb | hb
              · exact a2 b hb
              · exact Nat.le_trans a1 (b2 b hb)
            · intro e he
              rcases List.mem_append.mp he with he | he
              · exact a3 e he
              · obtain ⟨he1, he2⟩ := b3 e he
                exact ⟨Nat.le_trans a1 he1, fun b hb => Nat.le_trans a1 (he2 b hb)⟩

end MongooseSeeder

namespace MongooseSeeder

/-- References of the values of a field-list's first entries are
references of the field list. -/
theorem refsOfList_map_snd_take (fs : HFields) (n : Nat) (a : Nat)
    (ha : a ∈ refsOfList ((fs.take n).map Prod.snd)) : a ∈ refsOfFields fs := by
  induction fs generalizing n with
  | nil => simp [List.take, refsOfList] at ha
  | cons p rest ih =>
    obtain ⟨k, v⟩ := p
    cases n with
    | zero => simp [List.take, refsOfList] at ha
    | succ m =>
      simp only [List.take, List.map_cons, refsOfList, List.mem_append] at ha
      simp only [refsOfFields, List.mem_append]
      rcases ha with ha | ha
      · exact Or.inl ha
      · exact Or.inr (ih m ha)

/-- The in-place writes of a run on a fresh root do not change lookups
below the allocation cursor. -/
theorem seedMutations_low (h2 : Heap) (root : HVal) (n next : Nat)
    (hroot : ∀ a ∈ refsOf root, next ≤ a)
    (hfp : freshPart h2 next) :
    ∀ b, b < next → lookupHeap (seedMutationsH h2 root n) b = lookupHeap h2 b := by
  intro b hb
  cases root with
  | prim w => rfl
  | harr es => rfl
  | href a =>
    have ha : next ≤ a := hroot a (by simp [refsOf])
    have hbna : b ≠ a := fun hh => Nat.lt_irrefl b (Nat.lt_of_lt_of_le hb (hh ▸ ha))
    have hfp1 : freshPart (deleteFieldH h2 a "_dependencies") next :=
      freshPart_deleteFieldH h2 next a "_dependencies" hfp
    have hlow1 : lookupHeap (deleteFieldH h2 a "_dependencies") b = lookupHeap h2 b :=
      lookupHeap_deleteFieldH_other h2 a "_dependencies" b hbna
    cases hla : lookupHeap (deleteFieldH h2 a "_dependencies") a with
    | none =>
      show lookupHeap
        (match lookupHeap (deleteFieldH h2 a "_dependencies") a with
         | some fs => deleteModelAt ((fs.take n).map Prod.snd)
             (deleteFieldH h2 a "_dependencies")
         | none => deleteFieldH h2 a "_dependencies") b = lookupHeap h2 b
      rw [hla]
      exact hlow1
    | some fs =>
      have hmem := lookupHeap_some_mem _ a fs hla
      have hrefs : ∀ c ∈ refsOfFields fs, next ≤ c := hfp1 (a, fs) hmem ha
      have hvals : ∀ c ∈ refsOfList ((fs.take n).map Prod.snd), next ≤ c :=
        fun c hc => hrefs c (refsOfList_map_snd_take fs n c hc)
      have hdel := (deleteModelAt_props next ((fs.take n).map Prod.snd)
        (deleteFieldH h2 a "_dependencies") hvals hfp1).1 b hb
      show lookupHeap
        (match lookupHeap (deleteFieldH h2 a "_dependencies") a with
         | some fs => deleteModelAt ((fs.take n).map Prod.snd)
             (deleteFieldH h2 a "_dependencies")
         | none => deleteFieldH h2 a "_dependencies") b = lookupHeap h2 b
      rw [hla, hdel]
      exact hlow1

/-- C9: the caller's spec object is never mutated by a run.  Starting
from a closed heap holding the caller's object graph, `seed` clones the
graph at fresh addresses and `_seed` performs all of its in-place writes
(the dependency-declaration delete and the per-group model-marker
deletes, at every possible abort point `n`) on the clone; afterwards the
caller's object reads back exactly as before, model markers and
dependency declaration included. -/
theorem C9_caller_never_mutated (h nh : Heap) (root rootc : HVal)
    (fuel fuelc next nx n : Nat) (v0 : Value)
    (hcl : heapClosed h)
    (hlow : ∀ a ∈ domHeap h, a < next)
    (hroot : ∀ a ∈ refsOf root, a ∈ domHeap h)
    (hread : readback h fuel root = some v0)
    (hclone : cloneH h fuelc root next = some (rootc, nh, nx)) :
    readback (seedMutationsH (h ++ nh) rootc n) fuel root = some v0 := by
  obtain ⟨_, hrefs, hents⟩ := (cloneH_range h fuelc).1 root next rootc nh nx hclone
  have hfp : freshPart (h ++ nh) next := by
    intro e he hle a ha
    rcases List.mem_append.mp he with he | he
    · have h1 := hlow e.1 (List.mem_map_of_mem Prod.fst he)
      exact absurd hle (by omega)
    · exact (hents e he).2 a ha
  have hpres : ∀ a ∈ domHeap h,
      lookupHeap (seedMutationsH (h ++ nh) rootc n) a = lookupHeap h a := by
    intro a ha
    rw [seedMutations_low (h ++ nh) rootc n next hrefs hfp a (hlow a ha)]
    exact lookupHeap_append_left h nh a ha
  rw [(readback_ext h (seedMutationsH (h ++ nh) rootc n) hcl hpres fuel).1 root hroot]
  exact hread

/-- The caller's object graph used by the C9 witness: address 1 is the
spec root with a dependency declaration and one group reference; address
0 is the group object with its model marker. -/
def specHeap : Heap :=
  [(0, [("_model", HVal.prim (Value.str "User")), ("n", HVal.prim (Value.num 1))]),
   (1, [("_dependencies", HVal.prim (Value.str "d")), ("users", HVal.href 0)])]

/-- Witness for C9: after cloning the spec at fresh addresses 2 and 3
and performing every in-place write of the run on the clone, the
caller's object at address 1 reads back unchanged, dependency
declaration and model marker included. -/
theorem C9_witness :
    readback (seedMutationsH (specHeap ++
        [(2, [("_dependencies", HVal.prim (Value.str "d")), ("users", HVal.href 3)]),
         (3, [("_model", HVal.prim (Value.str "User")),
              ("n", HVal.prim (Value.num 1))])])
      (HVal.href 2) 2) 10 (HVal.href 1) =
      some (Value.obj [("_dependencies", Value.str "d"),
        ("users", Value.obj [("_model", Value.str "User"), ("n", Value.num 1)])]) :=
  C9_caller_never_mutated specHeap
    [(2, [("_dependencies", HVal.prim (Value.str "d")), ("users", HVal.href 3)]),
     (3, [("_model", HVal.prim (Value.str "User")), ("n", HVal.prim (Value.num 1))])]
    (HVal.href 1) (HVal.href 2) 10 10 2 4 2
    (Value.obj [("_dependencies", Value.str "d"),
      ("users", Value.obj [("_model", Value.str "User"), ("n", Value.num 1)])])
    (by unfold heapClosed; decide) (by decide) (by decide) rfl rfl

end MongooseSeeder
